import Mathlib

/-!
# Formal model of the racing repository's deterministic core

This file is a shallow embedding, in Lean 4, of the components of the
repository that the verification claims are about:

* `InputQueue` (src/app/src/entities/player/model/playerTypes.ts) —
  the timestamped input log with a live active set;
* the checkpoint transition logic (src/app/src/entities/checkpoint/Checkpoint.tsx)
  together with the checkpoint store (zustand store `useCheckPointStore`);
* the fixed-timestep accumulator loop of the `Player` component;
* `stepKart` (src/app/src/shared/lib/physics/kartModel.ts);
* the lap-time store `useTimeStore` and the ghost store `useGhostStore`
  with its JSON import/export boundary.

Modelling conventions:
* JavaScript numbers are modelled as exact numbers: `ℚ` for clock readings
  and geometry, `ℤ` for checkpoint indices / lap counters / millisecond
  durations, and `ℝ` for the kart physics (which uses `Math.sin`,
  `Math.atan2`, `Math.hypot`).  Floating-point rounding and NaN are not
  modelled; division is Lean's total division (`x / 0 = 0`).
* The ambient clock (`performance.now()`) is passed explicitly as an
  argument wherever the source reads it.
* JavaScript `Set` objects are modelled by their characteristic function
  (`InputAction → Bool`): only membership is observed by the code under
  verification, and insertion-order iteration is never relied upon.
* The platform pair `JSON.stringify` / `JSON.parse` is modelled by an
  executable serializer and recursive-descent parser over a JSON value
  type whose numbers are integers; `JSON.parse` throwing is modelled as
  the parser returning `none`.
-/

/-! ## InputQueue (playerTypes.ts) -/

/-- The five input actions of `InputAction` in playerTypes.ts. -/
inductive InputAction : Type
  | forward
  | backward
  | turnLeft
  | turnRight
  | jump
deriving DecidableEq, Repr

/-- `InputEvent` from playerTypes.ts: action, pressed flag, timestamp in
milliseconds (`performance.now()`), and the sequence index `frame`. -/
structure InputEvent : Type where
  action : InputAction
  pressed : Bool
  timestamp : ℚ
  frame : ℕ
deriving DecidableEq, Repr

instance : Inhabited InputEvent := ⟨⟨InputAction.forward, false, 0, 0⟩⟩

/-- The mutable fields of the `InputQueue` class. -/
structure InputQueue : Type where
  queue : List InputEvent
  currentInputs : InputAction → Bool
  gameStartTime : ℚ
  frameCounter : ℕ

/-- A fresh `new InputQueue()`. -/
def InputQueue.init : InputQueue := ⟨[], fun _ => false, 0, 0⟩

/-- The binary-search loop of `InputQueue.findInsertIndex`.  `left` and
`right` are the JS loop variables; out-of-range reads (which the loop never
performs) default to the `Inhabited` event.  The loop is driven by explicit
fuel so that the definition is structurally recursive; `right - left`
strictly decreases per iteration, so any fuel `≥ right - left` makes the
function agree with the JS loop, and once `right ≤ left` the returned value
is `left` whether or not fuel remains. -/
def InputQueue.findInsertIndexGo (q : List InputEvent) (timestamp : ℚ) :
    ℕ → ℕ → ℕ → ℕ
  | 0, left, _ => left
  | fuel + 1, left, right =>
    if left < right then
      let mid := (left + right) / 2
      if (q.getD mid default).timestamp < timestamp then
        InputQueue.findInsertIndexGo q timestamp fuel (mid + 1) right
      else
        InputQueue.findInsertIndexGo q timestamp fuel left mid
    else
      left

/-- `InputQueue.findInsertIndex`: lower-bound binary search over the
time-sorted queue. -/
def InputQueue.findInsertIndex (q : List InputEvent) (timestamp : ℚ) : ℕ :=
  InputQueue.findInsertIndexGo q timestamp q.length 0 q.length

/-- `InputQueue.addInput(action, pressed)`.  The event timestamp is the
ambient `performance.now()` reading, passed here as `now`.  The event is
spliced into timestamp order, the live set is updated, and if the log then
holds more than 1000 entries the oldest one is shifted off. -/
def InputQueue.addInput (iq : InputQueue) (action : InputAction)
    (pressed : Bool) (now : ℚ) : InputQueue :=
  let event : InputEvent :=
    ⟨action, pressed, now, iq.frameCounter⟩
  let insertIndex := InputQueue.findInsertIndex iq.queue now
  let q1 := List.insertIdx insertIndex event iq.queue
  let ci : InputAction → Bool :=
    fun b => if b = action then pressed else iq.currentInputs b
  let q2 := if q1.length > 1000 then q1.tail else q1
  ⟨q2, ci, iq.gameStartTime, iq.frameCounter + 1⟩

/-- `InputQueue.getCurrentInputs()` (returns a snapshot copy of the set;
membership-equal to the set itself). -/
def InputQueue.getCurrentInputs (iq : InputQueue) : InputAction → Bool :=
  iq.currentInputs

/-- The scanning loop of `getActiveInputsAt`: walk the queue in order,
stopping at the first event past `targetTime`, toggling membership. -/
def InputQueue.activeScan (targetTime : ℚ) :
    List InputEvent → (InputAction → Bool) → (InputAction → Bool)
  | [], acc => acc
  | e :: rest, acc =>
    if e.timestamp > targetTime then acc
    else
      InputQueue.activeScan targetTime rest
        (fun b => if b = e.action then e.pressed else acc b)

/-- `InputQueue.getActiveInputsAt(gameTime)`: reconstruct the active set at
session-relative time `gameTime` (seconds) from the log alone. -/
def InputQueue.getActiveInputsAt (iq : InputQueue) (gameTime : ℚ) :
    InputAction → Bool :=
  InputQueue.activeScan (iq.gameStartTime + gameTime * 1000) iq.queue
    (fun _ => false)

/-- `InputQueue.setGameStartTime(time)`: re-seed the session baseline and
reset the sequence counter. -/
def InputQueue.setGameStartTime (iq : InputQueue) (time : ℚ) : InputQueue :=
  ⟨iq.queue, iq.currentInputs, time, 0⟩

/-- `InputQueue.clear()`: empty the log and the active set.  (The source
does not touch `frameCounter` here.) -/
def InputQueue.clear (iq : InputQueue) : InputQueue :=
  ⟨[], fun _ => false, iq.gameStartTime, iq.frameCounter⟩

/-- One externally observable `addInput` call: the action, the pressed
flag, and the `performance.now()` reading at call time. -/
structure InputCall : Type where
  action : InputAction
  pressed : Bool
  ts : ℚ
deriving DecidableEq

/-- Replay a sequence of `addInput` calls against a queue state. -/
def InputQueue.applyCalls (iq : InputQueue) : List InputCall → InputQueue
  | [] => iq
  | c :: cs => InputQueue.applyCalls (iq.addInput c.action c.pressed c.ts) cs

/-- The pressed-state of the most recent event for action `a` in a call
sequence (`b₀` is the state when no event for `a` exists). -/
def lastPressedState (a : InputAction) (b₀ : Bool) : List InputCall → Bool
  | [] => b₀
  | c :: cs => lastPressedState a (if c.action = a then c.pressed else b₀) cs

/-- The live active set that existed at real time `t`: the current-input
set after exactly the calls that happened at or before `t`. -/
def liveActiveSetAt (start : ℚ) (cs : List InputCall) (t : ℚ) :
    InputAction → Bool :=
  ((InputQueue.init.setGameStartTime start).applyCalls
    (cs.filter fun c => c.ts ≤ t)).currentInputs

/-! ## Checkpoint state machine (Checkpoint.tsx + useCheckPointStore) -/

/-- The checkpoint store slice that the transition logic reads and writes:
`checkpoints.{total,last,laps}`, the per-index edge-trigger memory
`cpInside`, `startIndex`, and the respawn transform.  Indices and counters
are JS numbers, modelled as `ℤ`; poses as `ℚ`. -/
structure CPState : Type where
  total : ℤ
  last : ℤ
  laps : ℤ
  cpInside : ℤ → Bool
  startIndex : Option ℤ
  respawnPosition : Option (ℚ × ℚ × ℚ)
  respawnRotation : Option ℚ
  respawnRoll : Option ℚ

/-- The initial `useCheckPointStore` state (total/last/laps all 0, nothing
inside, no respawn pose). -/
def CPState.init : CPState :=
  ⟨0, 0, 0, fun _ => false, none, none, none, none⟩

/-- `isValidSequence` from Checkpoint.tsx (lines 153–157), for a fresh
overlap of checkpoint `index` with flags `start`: the four disjuncts,
evaluated against the store's current `last` and `total`. -/
def checkpointValidSequence (last total index : ℤ) (start : Bool) : Bool :=
  (start && (last == 0 || last == total)) ||
  (last == index - 1) ||
  (index == 0 && last == total) ||
  (index == 1 && last == total)

/-- `shouldIncrementLap` from Checkpoint.tsx (lines 164–168): end flag set,
pre-update `last` equals `total`, `last ≠ index`, and not the degenerate
first-frame case `last = 0 ∧ index = 0`. -/
def checkpointShouldIncrementLap (last total index : ℤ) (isEnd : Bool) : Bool :=
  isEnd && (last == total) && (last != index) && !((last == 0) && (index == 0))

/-- One `useFrame` execution of the transition logic of the `Checkpoint`
component with props `index`/`center`/`rotationZ`/`start`/`end`
(Checkpoint.tsx lines 142–208), given the physics collaborator's overlap
answer `inside`.  The lap-timer and ghost collaborators invoked on lap
completion do not write this store and are modelled elsewhere. -/
def checkpointFrame (s : CPState) (index : ℤ) (center : ℚ × ℚ × ℚ)
    (rotationZ : ℚ) (start isEnd inside : Bool) : CPState :=
  let wasInside := s.cpInside index
  if inside && !wasInside then
    let last := s.last
    let total := s.total
    if checkpointValidSequence last total index start then
      let s1 :=
        if checkpointShouldIncrementLap last total index isEnd then
          { s with laps := s.laps + 1, last := index }
        else
          { s with last := index }
      let s2 :=
        { s1 with
          respawnPosition := some (center.1, center.2.1 + 3, center.2.2)
          respawnRotation := some rotationZ
          respawnRoll := some rotationZ }
      let s3 := if start then { s2 with startIndex := some index } else s2
      { s3 with cpInside := fun j => if j = index then true else s3.cpInside j }
    else
      { s with cpInside := fun j => if j = index then true else s.cpInside j }
  else if !inside && wasInside then
    { s with cpInside := fun j => if j = index then false else s.cpInside j }
  else
    s

/-! ## Fixed-timestep movement loop (Player component, useFrame) -/

/-- `fixedTimeStep = 1 / 120` (seconds). -/
def fixedTimeStep : ℚ := 1 / 120

/-- `maxSteps = 10`: the per-tick substep cap. -/
def maxSteps : ℕ := 10

/-- The accumulator state of the movement loop: `accumulatedTimeRef` and
`gameTimeRef`. -/
structure LoopState : Type where
  accumulatedTime : ℚ
  gameTime : ℚ
deriving DecidableEq, Repr

/-- The `while (accumulated ≥ fixedTimeStep && steps < maxSteps)` substep
loop.  `fuel` is the number of substeps still allowed this tick
(`maxSteps - stepsProcessed`); each iteration advances game time by exactly
`fixedTimeStep` and consumes it from the accumulator.  The substep body's
physics and input reads do not touch these two fields. -/
def runSubsteps : ℕ → LoopState → LoopState
  | 0, st => st
  | fuel + 1, st =>
    if st.accumulatedTime ≥ fixedTimeStep then
      runSubsteps fuel
        ⟨st.accumulatedTime - fixedTimeStep, st.gameTime + fixedTimeStep⟩
    else
      st

/-- One render tick of the movement loop: add the frame delta to the
accumulator, then run at most `maxSteps` substeps. -/
def frameTick (st : LoopState) (delta : ℚ) : LoopState :=
  runSubsteps maxSteps ⟨st.accumulatedTime + delta, st.gameTime⟩

/-- A whole session of render ticks from given frame deltas. -/
def runFrames (st : LoopState) (deltas : List ℚ) : LoopState :=
  deltas.foldl frameTick st

/-- The number of substeps a tick executes, as observed through the game
clock: `(gameTime' - gameTime) / fixedTimeStep`. -/
def substepsOf (st : LoopState) (delta : ℚ) : ℚ :=
  ((frameTick st delta).gameTime - st.gameTime) / fixedTimeStep

/-! ## Lap-time store (useTimeStore) -/

/-- The `useTimeStore` state: clock readings in `ℚ` milliseconds, recorded
lap durations as integers (`Math.floor` output). -/
structure TimeState : Type where
  startTime : ℚ
  lapStartTime : ℚ
  lastLapMs : Option ℤ
  bestLapMs : Option ℤ
  lapTimes : List ℤ
deriving DecidableEq, Repr

/-- The initial `useTimeStore` state. -/
def TimeState.init : TimeState := ⟨0, 0, none, none, []⟩

/-- `Math.min(...list)` over a possibly-empty list, as an `Option`. -/
def listMin : List ℤ → Option ℤ
  | [] => none
  | x :: xs =>
    match listMin xs with
    | none => some x
    | some m => some (min x m)

/-- `setStartTime(startTime)`. -/
def TimeState.setStartTime (s : TimeState) (t : ℚ) : TimeState :=
  { s with startTime := t }

/-- `startLap(now)`. -/
def TimeState.startLap (s : TimeState) (now : ℚ) : TimeState :=
  { s with lapStartTime := now }

/-- `completeLap(now)`: if no lap is active (`lapStartTime` falsy, i.e. 0),
only start one; otherwise append `max(0, floor(now - lapStartTime))`, set
`lastLapMs`, recompute `bestLapMs` as the minimum of the new list (always
nonempty, hence finite), and restart the lap at `now`. -/
def TimeState.completeLap (s : TimeState) (now : ℚ) : TimeState :=
  if s.lapStartTime = 0 then
    { s with lapStartTime := now }
  else
    let duration : ℤ := max 0 ⌊now - s.lapStartTime⌋
    let nextTimes := s.lapTimes ++ [duration]
    let best : ℤ :=
      match listMin nextTimes with
      | some m => m
      | none => duration
    { s with
      lastLapMs := some duration
      bestLapMs := some best
      lapTimes := nextTimes
      lapStartTime := now }

/-- The operations of the lap-timer store. -/
inductive TimeOp : Type
  | setStart (t : ℚ)
  | startLap (now : ℚ)
  | completeLap (now : ℚ)

/-- Apply a sequence of store operations. -/
def TimeState.applyOps (s : TimeState) : List TimeOp → TimeState
  | [] => s
  | TimeOp.setStart t :: ops => (s.setStartTime t).applyOps ops
  | TimeOp.startLap now :: ops => (s.startLap now).applyOps ops
  | TimeOp.completeLap now :: ops => (s.completeLap now).applyOps ops

/-! ## Kart physics (kartModel.ts) -/

/-- `Vec2` from kartModel.ts. -/
structure KVec2 : Type where
  x : ℝ
  y : ℝ

/-- `KartState` from kartModel.ts. -/
structure KartState : Type where
  pos : KVec2
  vel : KVec2
  yaw : ℝ
  yawRate : ℝ
  drift : Bool
  driftDir : ℝ
  driftYawOffset : ℝ

/-- `KartInput` from kartModel.ts. -/
structure KartInput : Type where
  throttle : ℝ
  brake : ℝ
  steer : ℝ
  drift : Bool

/-- `KartParams` from kartModel.ts. -/
structure KartParams : Type where
  accel : ℝ
  brake : ℝ
  maxSpeed : ℝ
  drag : ℝ
  roll : ℝ
  steerMax : ℝ
  steerSpeed : ℝ
  wheelBase : ℝ
  grip : ℝ
  driftGripScale : ℝ
  driftYawMax : ℝ
  surfaceFriction : ℝ

/-- `add` from kartModel.ts. -/
def kadd (a b : KVec2) : KVec2 := ⟨a.x + b.x, a.y + b.y⟩

/-- `mul` from kartModel.ts. -/
def kmul (a : KVec2) (s : ℝ) : KVec2 := ⟨a.x * s, a.y * s⟩

/-- `len` from kartModel.ts (`Math.hypot`). -/
noncomputable def klen (a : KVec2) : ℝ := Real.sqrt (a.x ^ 2 + a.y ^ 2)

/-- `rot` from kartModel.ts. -/
noncomputable def krot (a : KVec2) (ang : ℝ) : KVec2 :=
  ⟨a.x * Real.cos ang - a.y * Real.sin ang,
   a.x * Real.sin ang + a.y * Real.cos ang⟩

/-- `Math.atan2(y, x)` on the reals. -/
noncomputable def matan2 (y x : ℝ) : ℝ :=
  if 0 < x then Real.arctan (y / x)
  else if x < 0 then
    (if 0 ≤ y then Real.arctan (y / x) + Real.pi
     else Real.arctan (y / x) - Real.pi)
  else
    (if 0 < y then Real.pi / 2 else if y < 0 then -(Real.pi / 2) else 0)

/-- `Math.sign(x) || dd || 1` from the drift-entry line: JS `||` takes the
first non-zero (truthy) value. -/
noncomputable def jsOrNum (a b c : ℝ) : ℝ :=
  if a ≠ 0 then a else if b ≠ 0 then b else c

open Classical in
/-- `stepKart` from kartModel.ts, translated statement by statement.  The
source mutates `state` in place; here the updated state is returned. -/
noncomputable def stepKart (state : KartState) (input : KartInput)
    (p : KartParams) (dt : ℝ) : KartState :=
  let speed := klen state.vel
  let steerAtten := 1 / (1 + 0.02 * speed)
  let targetSteer := input.steer * p.steerMax * steerAtten
  -- drift entry / exit
  let driftPair : Bool × ℝ :=
    if input.drift ∧ ¬state.drift ∧ speed > 2 ∧ |input.steer| > 0.1 then
      (true, jsOrNum (Real.sign targetSteer) state.driftDir 1)
    else if ¬input.drift then
      (false, 0)
    else
      (state.drift, state.driftDir)
  let drift := driftPair.1
  let driftDir := driftPair.2
  let driftScale := if drift then p.driftGripScale else 1.0
  let driftYawTarget := if drift then driftDir * p.driftYawMax else 0
  let driftYawOffset :=
    state.driftYawOffset +
      (driftYawTarget - state.driftYawOffset) * min 1 (p.steerSpeed * dt)
  let steerAngle := targetSteer + driftYawOffset
  let yawRate0 := (speed / p.wheelBase) * Real.sin steerAngle
  let yawRate :=
    if ¬drift ∧ |input.steer| < 0.05 then yawRate0 * 0.2 else yawRate0
  let yaw := state.yaw + yawRate * dt
  let velLocal := krot state.vel (-yaw)
  let slipAngle := matan2 velLocal.y (|velLocal.x| + 1e-4)
  let gripBase := p.grip * driftScale * p.surfaceFriction
  let cornerStiff := gripBase
  let fy := (-cornerStiff * slipAngle) / (1 + |slipAngle| * 2)
  let ax := input.throttle * p.accel - input.brake * p.brake
  let dragFx := -p.drag * velLocal.x * |velLocal.x|
  let rollFx := -p.roll * velLocal.x
  let latDamp := -2.0 * velLocal.y
  let axLocal := ax + dragFx + rollFx
  let ayLocal := fy + latDamp
  let accWorld := krot ⟨axLocal, ayLocal⟩ yaw
  let vel1 := kadd state.vel (kmul accWorld dt)
  let sp := klen vel1
  let vel2 := if sp > p.maxSpeed then kmul vel1 (p.maxSpeed / sp) else vel1
  let vel3 := if sp < 0.02 then (⟨0, 0⟩ : KVec2) else vel2
  let pos := kadd state.pos (kmul vel3 dt)
  ⟨pos, vel3, yaw, yawRate, drift, driftDir, driftYawOffset⟩

/-! ## JSON data model (platform `JSON.stringify` / `JSON.parse`)

The ghost store serializes recordings with the platform's JSON functions.
These are modelled here by an executable serializer and parser over a JSON
value type.  JSON numbers are modelled as integers (every number a
recording contains is produced by `Math.floor`, `Date.now()` or a position
coordinate; fractional floating-point printing is not modelled), and
`JSON.parse` throwing on malformed input is modelled by the parser
returning `none`. -/

/-- JSON values (numbers restricted to integers, strings as `List Char`). -/
inductive Json : Type
  | null
  | bool (b : Bool)
  | num (n : ℤ)
  | str (s : List Char)
  | arr (elems : List Json)
  | obj (fields : List (List Char × Json))

/-- The characters of a string literal. -/
def chars (s : String) : List Char := s.data

/-- Decimal digits of a natural number, most significant first.  Fuel-driven
so the definition is structurally recursive; `natDigits` supplies fuel
`n + 1`, which always suffices since `n / 10 < n` for `n ≥ 10`. -/
def natDigitsAux : ℕ → ℕ → List ℕ
  | 0, _ => []
  | fuel + 1, n =>
    if n < 10 then [n] else natDigitsAux fuel (n / 10) ++ [n % 10]

/-- Decimal digits of a natural number, most significant first. -/
def natDigits (n : ℕ) : List ℕ := natDigitsAux (n + 1) n

/-- The character of a decimal digit. -/
def digitCh (d : ℕ) : Char := Char.ofNat (48 + d)

/-- Canonical decimal characters of a natural number. -/
def natChars (n : ℕ) : List Char := (natDigits n).map digitCh

/-- Canonical decimal characters of an integer (as printed by JS for
integral numbers). -/
def intChars (n : ℤ) : List Char :=
  if n < 0 then '-' :: natChars n.natAbs else natChars n.toNat

/-- Lower-case hexadecimal digit character. -/
def hexDigitCh (d : ℕ) : Char :=
  if d < 10 then Char.ofNat (48 + d) else Char.ofNat (87 + d)

/-- How `JSON.stringify` escapes one character of a string: `"` and `\`
get a backslash, the five short control escapes use their letters, any
other control character becomes `\u00XX`, everything else is copied. -/
def escapeChar (c : Char) : List Char :=
  if c = '"' then ['\\', '"']
  else if c = '\\' then ['\\', '\\']
  else if c = Char.ofNat 8 then ['\\', 'b']
  else if c = Char.ofNat 9 then ['\\', 't']
  else if c = Char.ofNat 10 then ['\\', 'n']
  else if c = Char.ofNat 12 then ['\\', 'f']
  else if c = Char.ofNat 13 then ['\\', 'r']
  else if c.toNat < 32 then
    ['\\', 'u', '0', '0', hexDigitCh (c.toNat / 16), hexDigitCh (c.toNat % 16)]
  else [c]

/-- Escape a whole string body. -/
def escapeStr (s : List Char) : List Char :=
  s.foldr (fun c acc => escapeChar c ++ acc) []

mutual
/-- `JSON.stringify` (no spacing argument): the exact character stream the
platform produces for a `Json` value. -/
def Json.stringify : Json → List Char
  | Json.null => chars "null"
  | Json.bool true => chars "true"
  | Json.bool false => chars "false"
  | Json.num n => intChars n
  | Json.str s => '"' :: escapeStr s ++ ['"']
  | Json.arr elems => '[' :: Json.stringifyElems elems ++ [']']
  | Json.obj fields => '{' :: Json.stringifyFields fields ++ ['}']

/-- Comma-separated serialization of array elements. -/
def Json.stringifyElems : List Json → List Char
  | [] => []
  | [j] => j.stringify
  | j :: rest => j.stringify ++ ',' :: Json.stringifyElems rest

/-- Comma-separated serialization of object members. -/
def Json.stringifyFields : List (List Char × Json) → List Char
  | [] => []
  | [(k, v)] => '"' :: escapeStr k ++ '"' :: ':' :: v.stringify
  | (k, v) :: rest =>
    ('"' :: escapeStr k ++ '"' :: ':' :: v.stringify) ++
      ',' :: Json.stringifyFields rest
end

/-- Greedily take decimal digits from the front of the input. -/
def takeDigits : List Char → List ℕ × List Char
  | [] => ([], [])
  | c :: rest =>
    if 48 ≤ c.toNat ∧ c.toNat ≤ 57 then
      let p := takeDigits rest
      ((c.toNat - 48) :: p.1, p.2)
    else
      ([], c :: rest)

/-- Value of a most-significant-first digit list. -/
def digitsVal (ds : List ℕ) : ℕ := ds.foldl (fun a d => 10 * a + d) 0

/-- Parse a natural number (one or more digits). -/
def parseNumber (s : List Char) : Option (ℕ × List Char) :=
  match takeDigits s with
  | ([], _) => none
  | (ds, r) => some (digitsVal ds, r)

/-- Value of a hexadecimal digit character, if it is one. -/
def hexVal (c : Char) : Option ℕ :=
  if 48 ≤ c.toNat ∧ c.toNat ≤ 57 then some (c.toNat - 48)
  else if 97 ≤ c.toNat ∧ c.toNat ≤ 102 then some (c.toNat - 87)
  else if 65 ≤ c.toNat ∧ c.toNat ≤ 70 then some (c.toNat - 55)
  else none

/-- The character denoted by a one-letter escape, if valid. -/
def shortEscape (e : Char) : Option Char :=
  if e = '"' then some '"'
  else if e = '\\' then some '\\'
  else if e = '/' then some '/'
  else if e = 'b' then some (Char.ofNat 8)
  else if e = 't' then some (Char.ofNat 9)
  else if e = 'n' then some (Char.ofNat 10)
  else if e = 'f' then some (Char.ofNat 12)
  else if e = 'r' then some (Char.ofNat 13)
  else none

/-- Parse the body of a JSON string after the opening quote, returning the
decoded characters and the input after the closing quote.  Raw control
characters are rejected, `\uXXXX` escapes denoting UTF-16 surrogates are
rejected (strings are modelled as Unicode scalar sequences). -/
def parseStringBody : List Char → Option (List Char × List Char)
  | [] => none
  | c :: rest =>
    if c = '"' then some ([], rest)
    else if c = '\\' then
      match rest with
      | [] => none
      | e :: r2 =>
        if e = 'u' then
          match r2 with
          | h1 :: h2 :: h3 :: h4 :: r3 =>
            match hexVal h1, hexVal h2, hexVal h3, hexVal h4 with
            | some a, some b, some c2, some d =>
              let v := ((a * 16 + b) * 16 + c2) * 16 + d
              if 55296 ≤ v ∧ v ≤ 57343 then none
              else
                match parseStringBody r3 with
                | some (cs, r4) => some (Char.ofNat v :: cs, r4)
                | none => none
            | _, _, _, _ => none
          | _ => none
        else
          match shortEscape e with
          | some ch =>
            match parseStringBody r2 with
            | some (cs, r3) => some (ch :: cs, r3)
            | none => none
          | none => none
    else if c.toNat < 32 then none
    else
      match parseStringBody rest with
      | some (cs, r2) => some (c :: cs, r2)
      | none => none

/-- Parser modes: a single value, the elements of a (nonempty) array after
`[`, or the members of a (nonempty) object after `{`. -/
inductive PMode : Type
  | val
  | elems
  | fields

/-- Parser results, one constructor per mode. -/
inductive PRes : Type
  | val (j : Json) (rest : List Char)
  | elems (js : List Json) (rest : List Char)
  | fields (fs : List (List Char × Json)) (rest : List Char)

/-- The recursive-descent JSON parser, structurally recursive on explicit
fuel.  Each array element or object member and each nesting level consumes
at least one fuel unit; `input length + 1` fuel always suffices for input
produced by `Json.stringify`. -/
def parseCore : ℕ → PMode → List Char → Option PRes
  | 0, _, _ => none
  | fuel + 1, PMode.val, s =>
    match s with
    | [] => none
    | c :: rest =>
      if c = 'n' then
        match rest with
        | 'u' :: 'l' :: 'l' :: rest2 => some (PRes.val Json.null rest2)
        | _ => none
      else if c = 't' then
        match rest with
        | 'r' :: 'u' :: 'e' :: rest2 => some (PRes.val (Json.bool true) rest2)
        | _ => none
      else if c = 'f' then
        match rest with
        | 'a' :: 'l' :: 's' :: 'e' :: rest2 =>
          some (PRes.val (Json.bool false) rest2)
        | _ => none
      else if c = '"' then
        match parseStringBody rest with
        | some (cs, rest2) => some (PRes.val (Json.str cs) rest2)
        | none => none
      else if c = '[' then
        match rest with
        | [] => none
        | c2 :: rest2 =>
          if c2 = ']' then some (PRes.val (Json.arr []) rest2)
          else
            match parseCore fuel PMode.elems (c2 :: rest2) with
            | some (PRes.elems js rest3) => some (PRes.val (Json.arr js) rest3)
            | _ => none
      else if c = '{' then
        match rest with
        | [] => none
        | c2 :: rest2 =>
          if c2 = '}' then some (PRes.val (Json.obj []) rest2)
          else
            match parseCore fuel PMode.fields (c2 :: rest2) with
            | some (PRes.fields fs rest3) => some (PRes.val (Json.obj fs) rest3)
            | _ => none
      else if c = '-' then
        match parseNumber rest with
        | some (n, rest2) => some (PRes.val (Json.num (-(n : ℤ))) rest2)
        | none => none
      else if 48 ≤ c.toNat ∧ c.toNat ≤ 57 then
        match parseNumber (c :: rest) with
        | some (n, rest2) => some (PRes.val (Json.num (n : ℤ)) rest2)
        | none => none
      else none
  | fuel + 1, PMode.elems, s =>
    match parseCore fuel PMode.val s with
    | some (PRes.val j rest) =>
      match rest with
      | [] => none
      | c :: rest2 =>
        if c = ',' then
          match parseCore fuel PMode.elems rest2 with
          | some (PRes.elems js rest3) => some (PRes.elems (j :: js) rest3)
          | _ => none
        else if c = ']' then some (PRes.elems [j] rest2)
        else none
    | _ => none
  | fuel + 1, PMode.fields, s =>
    match s with
    | [] => none
    | c :: rest =>
      if c = '"' then
        match parseStringBody rest with
        | some (k, rest2) =>
          match rest2 with
          | [] => none
          | c2 :: rest3 =>
            if c2 = ':' then
              match parseCore fuel PMode.val rest3 with
              | some (PRes.val v rest4) =>
                match rest4 with
                | [] => none
                | c3 :: rest5 =>
                  if c3 = ',' then
                    match parseCore fuel PMode.fields rest5 with
                    | some (PRes.fields fs rest6) =>
                      some (PRes.fields ((k, v) :: fs) rest6)
                    | _ => none
                  else if c3 = '}' then some (PRes.fields [(k, v)] rest5)
                  else none
              | _ => none
            else none
        | none => none
      else none

/-- `JSON.parse`: parse a complete value consuming the whole input;
anything else (in particular anything that would make `JSON.parse` throw)
is `none`. -/
def parseJson (s : List Char) : Option Json :=
  match parseCore (s.length + 1) PMode.val s with
  | some (PRes.val j []) => some j
  | _ => none

mutual
/-- Parser fuel sufficient for a serialized value: one unit per nesting
level plus one per array element / object member. -/
def jsonFuel : Json → ℕ
  | Json.null => 1
  | Json.bool _ => 1
  | Json.num _ => 1
  | Json.str _ => 1
  | Json.arr [] => 1
  | Json.arr (x :: xs) => 1 + elemsFuel (x :: xs)
  | Json.obj [] => 1
  | Json.obj (f :: fs) => 1 + fieldsFuel (f :: fs)

/-- Fuel for the elements of an array. -/
def elemsFuel : List Json → ℕ
  | [] => 0
  | x :: xs => 1 + jsonFuel x + elemsFuel xs

/-- Fuel for the members of an object. -/
def fieldsFuel : List (List Char × Json) → ℕ
  | [] => 0
  | (_, v) :: fs => 1 + jsonFuel v + fieldsFuel fs
end

/-! ## Ghost store (useGhostStore): recordings and JSON import/export -/

/-- `GhostInputEvent` from the ghost store: ms offset, action name, pressed
flag.  Times are integers (`Math.floor` output). -/
structure GhostInputEvent : Type where
  t : ℤ
  action : List Char
  pressed : Bool
deriving DecidableEq, Repr

/-- `GhostPositionFrame`: ms offset and xyz position.  Coordinates are
modelled with the JSON number model (integers). -/
structure GhostPositionFrame : Type where
  t : ℤ
  position : ℤ × ℤ × ℤ
deriving DecidableEq, Repr

/-- `GhostRecording`: `meta.version` is the literal 1, so only `createdAt`
varies; plus the two sample arrays. -/
structure GhostRecording : Type where
  createdAt : ℤ
  inputs : List GhostInputEvent
  positions : List GhostPositionFrame
deriving DecidableEq, Repr

/-- The JSON value of one input sample, with the member order of the
object literal `{ t, action, pressed }` in `recordInput`. -/
def encodeInputEvent (e : GhostInputEvent) : Json :=
  Json.obj
    [(chars "t", Json.num e.t),
     (chars "action", Json.str e.action),
     (chars "pressed", Json.bool e.pressed)]

/-- The JSON value of one position sample (`{ t, position }` with a
3-element array). -/
def encodePositionFrame (f : GhostPositionFrame) : Json :=
  Json.obj
    [(chars "t", Json.num f.t),
     (chars "position",
      Json.arr [Json.num f.position.1, Json.num f.position.2.1,
                Json.num f.position.2.2])]

/-- The JSON value of a whole recording, with the member order of the
object literal built in `startRecording`. -/
def encodeRecording (r : GhostRecording) : Json :=
  Json.obj
    [(chars "meta",
      Json.obj [(chars "version", Json.num 1),
                (chars "createdAt", Json.num r.createdAt)]),
     (chars "inputs", Json.arr (r.inputs.map encodeInputEvent)),
     (chars "positions", Json.arr (r.positions.map encodePositionFrame))]

/-- Decode a list of JSON values elementwise, failing if any element
fails. -/
def decodeList {α : Type} (dec : Json → Option α) : List Json → Option (List α)
  | [] => some []
  | j :: js =>
    match dec j with
    | some a =>
      match decodeList dec js with
      | some as => some (a :: as)
      | none => none
    | none => none

/-- Read an input sample back from its JSON value. -/
def decodeInputEvent : Json → Option GhostInputEvent
  | Json.obj [(k1, Json.num t), (k2, Json.str a), (k3, Json.bool p)] =>
    if k1 = chars "t" ∧ k2 = chars "action" ∧ k3 = chars "pressed" then
      some ⟨t, a, p⟩
    else none
  | _ => none

/-- Read a position sample back from its JSON value. -/
def decodePositionFrame : Json → Option GhostPositionFrame
  | Json.obj [(k1, Json.num t), (k2, Json.arr [Json.num x, Json.num y, Json.num z])] =>
    if k1 = chars "t" ∧ k2 = chars "position" then
      some ⟨t, (x, y, z)⟩
    else none
  | _ => none

/-- Read a whole recording back from its JSON value (the typed view that
the TS `as GhostRecording` cast merely asserts). -/
def decodeRecording : Json → Option GhostRecording
  | Json.obj [(km, Json.obj [(kv, Json.num v), (kc, Json.num c)]),
              (ki, Json.arr ins), (kp, Json.arr pos)] =>
    if km = chars "meta" ∧ kv = chars "version" ∧ kc = chars "createdAt" ∧
        ki = chars "inputs" ∧ kp = chars "positions" ∧ v = 1 then
      match decodeList decodeInputEvent ins with
      | some inputs =>
        match decodeList decodePositionFrame pos with
        | some positions => some ⟨c, inputs, positions⟩
        | none => none
      | none => none
    else none
  | _ => none

/-- The ghost store fields involved in serialization.  `lastRecording` and
`recording` hold whatever JSON data was last stored (the TS type asserts
`GhostRecording`, but `importJson` stores the parse result unchecked). -/
structure GhostState : Type where
  isRecording : Bool
  recording : Option Json
  lastRecording : Option Json

/-- `exportJson()`: serialize `lastRecording ?? recording`, or null if
neither exists.  (The `try/catch` around `JSON.stringify` never fires for
acyclic data.) -/
def exportJson (st : GhostState) : Option (List Char) :=
  match st.lastRecording with
  | some rec => some rec.stringify
  | none =>
    match st.recording with
    | some rec => some rec.stringify
    | none => none

/-- `importJson(jsonString)`: parse and replace the playback recording;
a parse failure is caught and ignored, leaving the state unchanged. -/
def importJson (st : GhostState) (jsonString : List Char) : GhostState :=
  match parseJson jsonString with
  | some parsed => { st with lastRecording := some parsed }
  | none => st

/-! ## Statement-level helpers -/

/-- Apply one logged event to an active set (press inserts, release
removes) — the toggle used both by `addInput`'s live update and by
`getActiveInputsAt`'s scan. -/
def toggleEvent (acc : InputAction → Bool) (e : InputEvent) : InputAction → Bool :=
  fun b => if b = e.action then e.pressed else acc b

/-- The events that a sequence of `addInput` calls creates, with sequence
indices counted from `k`. -/
def eventsFrom : ℕ → List InputCall → List InputEvent
  | _, [] => []
  | k, c :: cs => ⟨c.action, c.pressed, c.ts, k⟩ :: eventsFrom (k + 1) cs

/-- Zero input: no throttle, no brake, centered steering, drift released. -/
def zeroKartInput : KartInput := ⟨0, 0, 0, false⟩

/-- The checkpoint store once the four checkpoints 0..3 have mounted
(`total` is the largest index, 3). -/
def c3s0 : CPState :=
  { CPState.init with total := 3 }

/-- A frame on which checkpoint `i` overlaps the player.  Checkpoint 0 is
the designated start/end checkpoint; 1..3 are plain. -/
def cpEnter (s : CPState) (i : ℤ) : CPState :=
  checkpointFrame s i (0, 0, 0) 0 (i == 0) (i == 0) true

/-- A frame on which checkpoint `i` no longer overlaps the player. -/
def cpExit (s : CPState) (i : ℤ) : CPState :=
  checkpointFrame s i (0, 0, 0) 0 (i == 0) (i == 0) false

/-- The `[0, 1, 2, 3]` stage of the `[0, 1, 2, 3, 0]` traversal: enter 0,
leave it, then enter 1, 2, 3 in order. -/
def c3beforeFinish : CPState :=
  cpEnter (cpEnter (cpEnter (cpExit (cpEnter c3s0 0) 0) 1) 2) 3

/-- The full `[0, 1, 2, 3, 0]` traversal: the second (fresh) overlap of
checkpoint 0. -/
def c3afterFinish : CPState :=
  cpEnter c3beforeFinish 0

/-! ## Theorems: InputQueue -/

theorem applyCalls_currentInputs_apply (cs : List InputCall) :
    ∀ (iq : InputQueue) (a : InputAction),
      (iq.applyCalls cs).currentInputs a = lastPressedState a (iq.currentInputs a) cs := by
  induction cs with
  | nil => intro iq a; rfl
  | cons c cs ih =>
    intro iq a
    rw [InputQueue.applyCalls, lastPressedState, ih]
    congr 1
    by_cases h : c.action = a
    · subst h; simp [InputQueue.addInput]
    · have h2 : ¬ a = c.action := fun hh => h hh.symm
      simp [InputQueue.addInput, h, h2]

/-- Claim C2 (confirmed): for any sequence of `addInput` calls — with
arbitrary timestamps, and with no bound on the length, so oldest-entry
eviction is exercised — `getCurrentInputs()` holds exactly the actions
whose most recent event has `pressed = true`.  Since the theorem
quantifies over every call sequence, it holds after every call. -/
theorem C2_getCurrentInputs_matches_most_recent (cs : List InputCall)
    (a : InputAction) :
    (InputQueue.init.applyCalls cs).getCurrentInputs a = lastPressedState a false cs :=
  applyCalls_currentInputs_apply cs InputQueue.init a

/-- Claim C9, counterexample: after `addInput` (sequence index 0) and then
`clear()`, the next `addInput` event receives sequence index 1, not 0 —
`clear()` does not reset the running counter. -/
theorem C9_counterexample :
    (((InputQueue.init.addInput InputAction.forward true 0).clear).addInput
        InputAction.forward true 1).queue.map InputEvent.frame = [1] ∧
    ¬ ((((InputQueue.init.addInput InputAction.forward true 0).clear).addInput
        InputAction.forward true 1).queue.map InputEvent.frame = [0]) := by
  constructor
  · rfl
  · intro h
    rw [show (((InputQueue.init.addInput InputAction.forward true 0).clear).addInput
        InputAction.forward true 1).queue.map InputEvent.frame = [1] from rfl] at h
    exact absurd h (by decide)

/-- Claim C9 (corrected): `clear()` resets the event log and the active
set but leaves the sequence counter untouched; the next `addInput` event
receives the pre-`clear` counter value.  The counter is reset (to 0) by
`setGameStartTime`, the companion respawn call. -/
theorem C9_clear_resets_log_and_active_set (iq : InputQueue) (t : ℚ)
    (a : InputAction) (p : Bool) (ts : ℚ) :
    iq.clear.queue = [] ∧
    iq.clear.currentInputs = (fun _ => false) ∧
    iq.clear.frameCounter = iq.frameCounter ∧
    (iq.clear.addInput a p ts).queue = [⟨a, p, ts, iq.frameCounter⟩] ∧
    (iq.clear.setGameStartTime t).frameCounter = 0 :=
  ⟨rfl, rfl, rfl, rfl, rfl⟩

theorem findInsertIndexGo_all_lt (q : List InputEvent) (ts : ℚ)
    (h : ∀ e ∈ q, e.timestamp < ts) :
    ∀ (fuel left right : ℕ), left ≤ right → right ≤ q.length →
      right - left ≤ fuel →
      InputQueue.findInsertIndexGo q ts fuel left right = right := by
  intro fuel
  induction fuel with
  | zero =>
    intro l r h1 h2 h3
    have : l = r := by omega
    subst this
    rfl
  | succ f ih =>
    intro l r h1 h2 h3
    by_cases hlr : l < r
    · have hmidlt : (l + r) / 2 < r := by omega
      have hmidge : l ≤ (l + r) / 2 := by omega
      have hlen : (l + r) / 2 < q.length := by omega
      have hmem : q.getD ((l + r) / 2) default ∈ q := by
        rw [List.getD_eq_getElem q default hlen]
        exact List.getElem_mem hlen
      have hts := h _ hmem
      rw [InputQueue.findInsertIndexGo]
      simp only [if_pos hlr, if_pos hts]
      exact ih ((l + r) / 2 + 1) r (by omega) h2 (by omega)
    · rw [InputQueue.findInsertIndexGo]
      simp only [if_neg hlr]
      omega

theorem findInsertIndex_all_lt (q : List InputEvent) (ts : ℚ)
    (h : ∀ e ∈ q, e.timestamp < ts) :
    InputQueue.findInsertIndex q ts = q.length :=
  findInsertIndexGo_all_lt q ts h q.length 0 q.length (Nat.zero_le _)
    (Nat.le_refl _) (by omega)

theorem applyCalls_gameStartTime (cs : List InputCall) :
    ∀ iq : InputQueue, (iq.applyCalls cs).gameStartTime = iq.gameStartTime := by
  induction cs with
  | nil => intro iq; rfl
  | cons c cs ih => intro iq; rw [InputQueue.applyCalls, ih]; rfl

theorem applyCalls_queue_append (cs : List InputCall) :
    ∀ iq : InputQueue,
      (∀ e ∈ iq.queue, ∀ c ∈ cs, e.timestamp < c.ts) →
      List.Pairwise (fun c d => c.ts < d.ts) cs →
      iq.queue.length + cs.length ≤ 1000 →
      (iq.applyCalls cs).queue = iq.queue ++ eventsFrom iq.frameCounter cs := by
  induction cs with
  | nil => intro iq _ _ _; simp [InputQueue.applyCalls, eventsFrom]
  | cons c cs ih =>
    intro iq hlt hpw hcap
    rw [InputQueue.applyCalls]
    have hallq : ∀ e ∈ iq.queue, e.timestamp < c.ts := fun e he =>
      hlt e he c (List.mem_cons_self c cs)
    have hidx : InputQueue.findInsertIndex iq.queue c.ts = iq.queue.length :=
      findInsertIndex_all_lt iq.queue c.ts hallq
    have hq1 : (iq.addInput c.action c.pressed c.ts).queue =
        iq.queue ++ [⟨c.action, c.pressed, c.ts, iq.frameCounter⟩] := by
      show (let q1 := List.insertIdx (InputQueue.findInsertIndex iq.queue c.ts)
              (⟨c.action, c.pressed, c.ts, iq.frameCounter⟩ : InputEvent) iq.queue
            if q1.length > 1000 then q1.tail else q1) = _
      rw [hidx, List.insertIdx_length_self]
      have hlen : (iq.queue ++
          [(⟨c.action, c.pressed, c.ts, iq.frameCounter⟩ : InputEvent)]).length =
          iq.queue.length + 1 := by simp
      have : ¬ ((iq.queue ++
          [(⟨c.action, c.pressed, c.ts, iq.frameCounter⟩ : InputEvent)]).length > 1000) := by
        rw [hlen]; simp at hcap ⊢; omega
      simp only [if_neg this]
    have hfc : (iq.addInput c.action c.pressed c.ts).frameCounter =
        iq.frameCounter + 1 := rfl
    have hstep := ih (iq.addInput c.action c.pressed c.ts) ?_ (List.Pairwise.of_cons hpw) ?_
    · rw [hstep, hq1, hfc, eventsFrom, List.append_assoc]
      rfl
    · intro e he d hd
      rw [hq1] at he
      rcases List.mem_append.1 he with he2 | he2
      · exact hlt e he2 d (List.mem_cons_of_mem c hd)
      · have : e = (⟨c.action, c.pressed, c.ts, iq.frameCounter⟩ : InputEvent) := by
          simpa using he2
        subst this
        exact (List.pairwise_cons.1 hpw).1 d hd
    · rw [hq1]
      simp at hcap ⊢
      omega

theorem activeScan_eq_takeWhile_foldl (targetTime : ℚ) :
    ∀ (q : List InputEvent) (acc : InputAction → Bool),
      InputQueue.activeScan targetTime q acc =
        (q.takeWhile fun e => decide (e.timestamp ≤ targetTime)).foldl toggleEvent acc := by
  intro q
  induction q with
  | nil => intro acc; rfl
  | cons e rest ih =>
    intro acc
    by_cases h : e.timestamp > targetTime
    · have hd : decide (e.timestamp ≤ targetTime) = false :=
        decide_eq_false (not_le.2 h)
      rw [InputQueue.activeScan, if_pos h, List.takeWhile]
      simp [hd]
    · have hd : decide (e.timestamp ≤ targetTime) = true :=
        decide_eq_true (not_lt.1 h)
      rw [InputQueue.activeScan, if_neg h, List.takeWhile]
      simp only [hd, List.foldl_cons]
      exact ih _

theorem takeWhile_eq_filter_of_sorted :
    ∀ (q : List InputEvent),
      List.Pairwise (fun a b : InputEvent => a.timestamp < b.timestamp) q →
      ∀ targetTime : ℚ,
        (q.takeWhile fun e => decide (e.timestamp ≤ targetTime)) =
          q.filter fun e => decide (e.timestamp ≤ targetTime) := by
  intro q
  induction q with
  | nil => intro _ _; rfl
  | cons e rest ih =>
    intro hpw T
    rcases List.pairwise_cons.1 hpw with ⟨hhead, htail⟩
    by_cases h : e.timestamp ≤ T
    · rw [List.takeWhile, List.filter]
      simp only [decide_eq_true h]
      rw [ih htail T]
    · have hfilter : (rest.filter fun e2 => decide (e2.timestamp ≤ T)) = [] := by
        rw [List.filter_eq_nil_iff]
        intro a ha
        simp only [decide_eq_true_eq]
        intro hle
        exact h (le_of_lt (lt_of_lt_of_le (hhead a ha) hle))
      rw [List.takeWhile, List.filter]
      simp only [decide_eq_false h]
      simp [hfilter]

theorem mem_eventsFrom_ts :
    ∀ (cs : List InputCall) (k : ℕ) (e : InputEvent),
      e ∈ eventsFrom k cs → ∃ c ∈ cs, e.timestamp = c.ts := by
  intro cs
  induction cs with
  | nil => intro k e he; cases he
  | cons c cs ih =>
    intro k e he
    rw [eventsFrom] at he
    rcases List.mem_cons.1 he with he2 | he2
    · exact ⟨c, List.mem_cons_self c cs, by rw [he2]⟩
    · rcases ih (k + 1) e he2 with ⟨d, hd, hts⟩
      exact ⟨d, List.mem_cons_of_mem c hd, hts⟩

theorem eventsFrom_pairwise :
    ∀ (cs : List InputCall) (k : ℕ),
      List.Pairwise (fun c d => c.ts < d.ts) cs →
      List.Pairwise (fun a b : InputEvent => a.timestamp < b.timestamp)
        (eventsFrom k cs) := by
  intro cs
  induction cs with
  | nil => intro k _; exact List.Pairwise.nil
  | cons c cs ih =>
    intro k hpw
    rcases List.pairwise_cons.1 hpw with ⟨hhead, htail⟩
    rw [eventsFrom]
    refine List.pairwise_cons.2 ⟨?_, ih (k + 1) htail⟩
    intro e he
    rcases mem_eventsFrom_ts cs (k + 1) e he with ⟨d, hd, hts⟩
    rw [hts]
    exact hhead d hd

theorem eventsFrom_filter_foldl (p : ℚ) :
    ∀ (cs : List InputCall) (k : ℕ) (acc : InputAction → Bool),
      ((eventsFrom k cs).filter fun e => decide (e.timestamp ≤ p)).foldl
          toggleEvent acc =
        ((cs.filter fun c => decide (c.ts ≤ p)).foldl
          (fun A c => fun b => if b = c.action then c.pressed else A b) acc) := by
  intro cs
  induction cs with
  | nil => intro k acc; rfl
  | cons c cs ih =>
    intro k acc
    rw [eventsFrom, List.filter, List.filter]
    by_cases h : c.ts ≤ p
    · simp only [decide_eq_true h, List.foldl_cons]
      exact ih (k + 1) _
    · simp only [decide_eq_false h]
      exact ih (k + 1) acc

theorem applyCalls_currentInputs_foldl :
    ∀ (cs : List InputCall) (iq : InputQueue),
      (iq.applyCalls cs).currentInputs =
        cs.foldl (fun A c => fun b => if b = c.action then c.pressed else A b)
          iq.currentInputs := by
  intro cs
  induction cs with
  | nil => intro iq; rfl
  | cons c cs ih =>
    intro iq
    rw [InputQueue.applyCalls, List.foldl_cons, ih]
    rfl

/-- Claim C1, counterexample: under a merely monotonic (non-strict) clock
two calls may share a timestamp; the lower-bound binary search then inserts
the later event **before** the earlier one, so the log order reverses the
call order and `getActiveInputsAt` reconstructs a set different from the
live one.  Press-then-release of `forward`, both at time 0, session start
0, queried at session-relative time 0: the log replays release-then-press
and reports `forward` active, while the live set is empty. -/
theorem C1_counterexample :
    ¬ (((InputQueue.init.setGameStartTime 0).applyCalls
          [⟨InputAction.forward, true, 0⟩, ⟨InputAction.forward, false, 0⟩]).getActiveInputsAt 0 =
        liveActiveSetAt 0
          [⟨InputAction.forward, true, 0⟩, ⟨InputAction.forward, false, 0⟩]
          (0 + 0 * 1000)) := by
  intro h
  have h2 := congrFun h InputAction.forward
  norm_num [InputQueue.getActiveInputsAt, InputQueue.applyCalls,
    InputQueue.addInput, InputQueue.setGameStartTime, InputQueue.init,
    InputQueue.findInsertIndex, InputQueue.findInsertIndexGo,
    InputQueue.activeScan, liveActiveSetAt, InputQueue.getCurrentInputs,
    List.insertIdx_zero, List.filter, List.getD] at h2

/-- Claim C1 (corrected): replay fidelity of `getActiveInputsAt` holds
when the clock readings of the calls are **strictly** increasing (and, as
the claim already assumes, no more than the 1000-entry capacity is
logged): for every session-relative time `t`, the set reconstructed from
the log equals the live active set that existed at real time
`sessionStart + 1000·t` (the current-input set after exactly the calls
with timestamps at or before that instant). -/
theorem C1_replay_fidelity_strict (start : ℚ) (cs : List InputCall) (t : ℚ)
    (hmono : List.Pairwise (fun c d => c.ts < d.ts) cs)
    (hcap : cs.length ≤ 1000) :
    ((InputQueue.init.setGameStartTime start).applyCalls cs).getActiveInputsAt t
      = liveActiveSetAt start cs (start + t * 1000) := by
  have hqueue := applyCalls_queue_append cs (InputQueue.init.setGameStartTime start)
    (by intro e he; cases he) hmono
    (by simpa [InputQueue.init, InputQueue.setGameStartTime] using hcap)
  have hgst := applyCalls_gameStartTime cs (InputQueue.init.setGameStartTime start)
  rw [InputQueue.getActiveInputsAt, hgst, hqueue]
  show InputQueue.activeScan (start + t * 1000) ([] ++ eventsFrom 0 cs)
      (fun _ => false) = _
  rw [List.nil_append, activeScan_eq_takeWhile_foldl,
    takeWhile_eq_filter_of_sorted (eventsFrom 0 cs) (eventsFrom_pairwise cs 0 hmono),
    eventsFrom_filter_foldl, liveActiveSetAt, applyCalls_currentInputs_foldl]
  rfl

/-- Claim C1, witness: a single `forward` press 5 ms after session start;
at session-relative time 1 s both the reconstruction and the live set
contain exactly that press. -/
theorem C1_witness :
    List.Pairwise (fun c d => c.ts < d.ts)
        [(⟨InputAction.forward, true, 5⟩ : InputCall)] ∧
    ([(⟨InputAction.forward, true, 5⟩ : InputCall)].length ≤ 1000) ∧
    ((InputQueue.init.setGameStartTime 0).applyCalls
        [(⟨InputAction.forward, true, 5⟩ : InputCall)]).getActiveInputsAt 1 =
      liveActiveSetAt 0 [(⟨InputAction.forward, true, 5⟩ : InputCall)]
        (0 + 1 * 1000) :=
  ⟨by decide, by decide,
    C1_replay_fidelity_strict 0 _ 1 (by decide) (by decide)⟩

/-! ## Theorems: checkpoint state machine -/

/-- Claim C3 (confirmed): with `total = 3` and the designated start/end
checkpoint at index 0, the traversal `[0, 1, 2, 3, 0]` (entering each
checkpoint freshly, having left checkpoint 0 before returning to it) gives
`laps = 0` at every stage before the second visit to 0 and `laps = 1`
after it, with `last` moving 0, 1, 2, 3, 0.  In general, a fresh valid
overlap increments `laps` by exactly one precisely when the pre-update
`last` equals `total`, the end flag is set, and the degenerate first-frame
case (`last = 0` entering index 0) is excluded — otherwise it leaves
`laps` unchanged. -/
theorem C3_full_traversal_counts_one_lap :
    ((cpEnter c3s0 0).laps = 0 ∧ (cpEnter c3s0 0).last = 0 ∧
     (cpEnter (cpExit (cpEnter c3s0 0) 0) 1).laps = 0 ∧
     (cpEnter (cpExit (cpEnter c3s0 0) 0) 1).last = 1 ∧
     (cpEnter (cpEnter (cpExit (cpEnter c3s0 0) 0) 1) 2).laps = 0 ∧
     c3beforeFinish.laps = 0 ∧ c3beforeFinish.last = 3 ∧
     c3afterFinish.laps = 1 ∧ c3afterFinish.last = 0) ∧
    (∀ (s : CPState) (i : ℤ) (center : ℚ × ℚ × ℚ) (rotZ : ℚ)
        (start isEnd : Bool),
      s.cpInside i = false →
      checkpointValidSequence s.last s.total i start = true →
      (checkpointFrame s i center rotZ start isEnd true).laps =
        (if checkpointShouldIncrementLap s.last s.total i isEnd then
          s.laps + 1 else s.laps)) := by
  constructor
  · decide
  · intro s i center rotZ start isEnd hfresh hvalid
    cases hinc : checkpointShouldIncrementLap s.last s.total i isEnd <;>
      cases hstart : start <;>
        simp_all [checkpointFrame, hfresh, hinc, hstart]

/-- Claim C3, witness: the finishing step of the traversal — entering
checkpoint 0 from `last = 3` — satisfies the general clause's hypotheses
and increments `laps` from 0 to 1. -/
theorem C3_witness :
    c3beforeFinish.cpInside 0 = false ∧
    checkpointValidSequence c3beforeFinish.last c3beforeFinish.total 0 true = true ∧
    (checkpointFrame c3beforeFinish 0 (0, 0, 0) 0 true true true).laps =
      (if checkpointShouldIncrementLap c3beforeFinish.last c3beforeFinish.total
          0 true then c3beforeFinish.laps + 1 else c3beforeFinish.laps) :=
  ⟨by decide, by decide,
    C3_full_traversal_counts_one_lap.2 c3beforeFinish 0 (0, 0, 0) 0 true true
      (by decide) (by decide)⟩

/-- Claim C4 (confirmed): a fresh overlap whose index fails the
valid-sequence test changes nothing except the per-index edge-trigger
memory: `last`, `laps`, `total`, `startIndex` and the whole respawn
transform are untouched, and only `cpInside` at the overlapped index is
set. -/
theorem C4_invalid_transition_is_noop (s : CPState) (i : ℤ)
    (center : ℚ × ℚ × ℚ) (rotZ : ℚ) (start isEnd : Bool)
    (hfresh : s.cpInside i = false)
    (hinvalid : checkpointValidSequence s.last s.total i start = false) :
    checkpointFrame s i center rotZ start isEnd true =
      { s with cpInside := fun j => if j = i then true else s.cpInside j } := by
  simp [checkpointFrame, hfresh, hinvalid]

/-- Claim C4, witness: the `[0, 2]` traversal — enter checkpoint 0 from
the initial state, then overlap checkpoint 2 (skipping 1).  The attempt
fails the valid-sequence test and the store keeps `last = 0`, `laps`,
respawn pose and all other fields. -/
theorem C4_witness :
    (cpEnter c3s0 0).cpInside 2 = false ∧
    checkpointValidSequence (cpEnter c3s0 0).last (cpEnter c3s0 0).total 2
      false = false ∧
    (cpEnter c3s0 0).last = 0 ∧
    checkpointFrame (cpEnter c3s0 0) 2 (0, 0, 0) 0 false false true =
      { cpEnter c3s0 0 with
          cpInside := fun j => if j = 2 then true else (cpEnter c3s0 0).cpInside j } :=
  ⟨by decide, by decide, by decide,
    C4_invalid_transition_is_noop (cpEnter c3s0 0) 2 (0, 0, 0) 0 false false
      (by decide) (by decide)⟩

/-! ## Theorems: fixed-timestep movement loop -/

theorem runSubsteps_spec :
    ∀ (fuel : ℕ) (st : LoopState), ∃ k : ℕ, k ≤ fuel ∧
      runSubsteps fuel st =
        ⟨st.accumulatedTime - k * fixedTimeStep, st.gameTime + k * fixedTimeStep⟩ := by
  intro fuel
  induction fuel with
  | zero =>
    intro st
    exact ⟨0, Nat.le_refl 0, by cases st with | mk a g => simp [runSubsteps]⟩
  | succ f ih =>
    intro st
    by_cases h : st.accumulatedTime ≥ fixedTimeStep
    · rcases ih ⟨st.accumulatedTime - fixedTimeStep, st.gameTime + fixedTimeStep⟩
        with ⟨k, hk, heq⟩
      refine ⟨k + 1, by omega, ?_⟩
      rw [runSubsteps, if_pos h, heq]
      simp only [LoopState.mk.injEq]
      constructor <;> (push_cast; ring)
    · refine ⟨0, Nat.zero_le _, ?_⟩
      rw [runSubsteps, if_neg h]
      cases st with | mk a g => simp

/-- Claim C5 (confirmed): every render tick executes at most `maxSteps`
(10) substeps — whatever the frame delta, including deltas beyond
`10 × fixedTimeStep`; the game clock advances by exactly `fixedTimeStep`
per executed substep, and the unconsumed accumulator remainder carries
over, so that over any session of render ticks the accumulator plus the
consumed game time equals the sum of the frame deltas (no time lost or
double-counted). -/
theorem C5_substep_cap_and_time_conservation :
    (∀ (st : LoopState) (delta : ℚ), ∃ k : ℕ, k ≤ maxSteps ∧
      frameTick st delta =
        ⟨st.accumulatedTime + delta - k * fixedTimeStep,
         st.gameTime + k * fixedTimeStep⟩) ∧
    (∀ deltas : List ℚ,
      (runFrames ⟨0, 0⟩ deltas).accumulatedTime +
        (runFrames ⟨0, 0⟩ deltas).gameTime = deltas.sum) := by
  have htick : ∀ (st : LoopState) (delta : ℚ), ∃ k : ℕ, k ≤ maxSteps ∧
      frameTick st delta =
        ⟨st.accumulatedTime + delta - k * fixedTimeStep,
         st.gameTime + k * fixedTimeStep⟩ := by
    intro st delta
    rcases runSubsteps_spec maxSteps ⟨st.accumulatedTime + delta, st.gameTime⟩
      with ⟨k, hk, heq⟩
    exact ⟨k, hk, heq⟩
  refine ⟨htick, ?_⟩
  have hgen : ∀ (deltas : List ℚ) (st : LoopState),
      (runFrames st deltas).accumulatedTime + (runFrames st deltas).gameTime =
        st.accumulatedTime + st.gameTime + deltas.sum := by
    intro deltas
    induction deltas with
    | nil => intro st; simp [runFrames]
    | cons d ds ih =>
      intro st
      rcases htick st d with ⟨k, _, heq⟩
      have hstep : runFrames st (d :: ds) = runFrames (frameTick st d) ds := rfl
      rw [hstep, ih, heq]
      simp only [List.sum_cons]
      ring
  intro deltas
  rw [hgen deltas ⟨0, 0⟩]
  simp

/-! ## Theorems: lap-time store -/

theorem listMin_concat_isSome (l : List ℤ) (x : ℤ) :
    ∃ m, listMin (l ++ [x]) = some m := by
  induction l with
  | nil => exact ⟨x, rfl⟩
  | cons y l ih =>
    rcases ih with ⟨m, hm⟩
    refine ⟨min y m, ?_⟩
    rw [List.cons_append, listMin, hm]

theorem completeLap_fields (s : TimeState) (now : ℚ) :
    (s.completeLap now).lapStartTime = now ∧
    (s.completeLap now).lapTimes =
      (if s.lapStartTime = 0 then s.lapTimes
       else s.lapTimes ++ [max 0 ⌊now - s.lapStartTime⌋]) ∧
    (s.completeLap now).lastLapMs =
      (if s.lapStartTime = 0 then s.lastLapMs
       else some (max 0 ⌊now - s.lapStartTime⌋)) ∧
    (s.completeLap now).bestLapMs =
      (if s.lapStartTime = 0 then s.bestLapMs
       else listMin ((s.completeLap now).lapTimes)) := by
  by_cases h : s.lapStartTime = 0
  · simp [TimeState.completeLap, h]
  · rcases listMin_concat_isSome s.lapTimes (max 0 ⌊now - s.lapStartTime⌋)
      with ⟨m, hm⟩
    simp [TimeState.completeLap, h, hm]

theorem applyOps_keeps_invariant :
    ∀ (ops : List TimeOp) (s : TimeState),
      (s.bestLapMs = listMin s.lapTimes ∧ s.lastLapMs = s.lapTimes.getLast?) →
      ((s.applyOps ops).bestLapMs = listMin (s.applyOps ops).lapTimes ∧
       (s.applyOps ops).lastLapMs = (s.applyOps ops).lapTimes.getLast?) := by
  intro ops
  induction ops with
  | nil => intro s h; exact h
  | cons op ops ih =>
    intro s h
    cases op with
    | setStart t => exact ih _ h
    | startLap now => exact ih _ h
    | completeLap now =>
      refine ih _ ?_
      by_cases h0 : s.lapStartTime = 0
      · simpa [TimeState.completeLap, h0] using h
      · rcases listMin_concat_isSome s.lapTimes (max 0 ⌊now - s.lapStartTime⌋)
          with ⟨m, hm⟩
        constructor
        · simp [TimeState.completeLap, h0, hm]
        · simp [TimeState.completeLap, h0, List.getLast?_concat]

/-- Claim C10 (confirmed): after any operation sequence on the lap-timer
store, `bestLapMs` is the minimum of `lapTimes` and `lastLapMs` its last
entry; and each `completeLap(now)` with nonzero `lapStartTime` appends
`max(0, floor(now − lapStartTime))`, sets `lastLapMs` to that duration and
`bestLapMs` to the minimum of the new list, and restarts the lap at `now`,
while with `lapStartTime = 0` it records nothing and only starts a new
lap. -/
theorem C10_lap_timer_invariant :
    (∀ ops : List TimeOp,
      (TimeState.init.applyOps ops).bestLapMs =
        listMin (TimeState.init.applyOps ops).lapTimes ∧
      (TimeState.init.applyOps ops).lastLapMs =
        (TimeState.init.applyOps ops).lapTimes.getLast?) ∧
    (∀ (s : TimeState) (now : ℚ),
      (s.completeLap now).lapStartTime = now ∧
      (s.completeLap now).lapTimes =
        (if s.lapStartTime = 0 then s.lapTimes
         else s.lapTimes ++ [max 0 ⌊now - s.lapStartTime⌋]) ∧
      (s.completeLap now).lastLapMs =
        (if s.lapStartTime = 0 then s.lastLapMs
         else some (max 0 ⌊now - s.lapStartTime⌋)) ∧
      (s.completeLap now).bestLapMs =
        (if s.lapStartTime = 0 then s.bestLapMs
         else listMin ((s.completeLap now).lapTimes))) :=
  ⟨fun ops => applyOps_keeps_invariant ops TimeState.init ⟨rfl, rfl⟩,
   completeLap_fields⟩

/-! ## Theorems: kart physics -/

/-- Claim C6, counterexample: a state with zero linear velocity but
nonzero `yawRate`, an engaged drift and a nonzero drift-yaw offset is
changed by `stepKart` under zero input — the drift is exited (`drift`
becomes `false`, `driftDir` 0) and the yaw rate is recomputed to 0 — so
"zero velocity + zero input ⇒ state unchanged" fails as stated for
arbitrary drift/yaw-rate fields. -/
theorem C6_counterexample :
    stepKart ⟨⟨0, 0⟩, ⟨0, 0⟩, 0, 1, true, 1, 1⟩ zeroKartInput
        ⟨1, 1, 1, 1, 1, 1, 1, 1, 1, 1, 1, 1⟩ 1 ≠
      ⟨⟨0, 0⟩, ⟨0, 0⟩, 0, 1, true, 1, 1⟩ := by
  intro h
  have hd := congrArg KartState.drift h
  simp [stepKart, zeroKartInput] at hd

/-- Claim C6 (corrected): rest idempotence holds for a fully-at-rest
state: zero input (throttle, brake, steer all 0, drift flag released)
leaves position, velocity, yaw, yaw rate, drift fields and drift-yaw
offset unchanged for every Δt and every parameter set, provided the
starting state has zero velocity **and** zero yaw rate, disengaged drift
(`drift = false`, `driftDir = 0`) and zero drift-yaw offset. -/
theorem C6_rest_state_unchanged (p : KartParams) (dt : ℝ) (s : KartState)
    (hvel : s.vel = ⟨0, 0⟩) (hyr : s.yawRate = 0) (hdrift : s.drift = false)
    (hdir : s.driftDir = 0) (hoff : s.driftYawOffset = 0) :
    stepKart s zeroKartInput p dt = s := by
  cases s with
  | mk pos vel yaw yr dr dd off =>
    simp only at hvel hyr hdrift hdir hoff
    subst hvel hyr hdrift hdir hoff
    norm_num [stepKart, zeroKartInput, klen, krot, kadd, kmul, matan2,
      Real.sqrt_zero, Real.arctan_zero, Real.sin_zero]

/-- Claim C6, witness: the origin state at rest is a fixed point of
`stepKart` under zero input for the all-ones parameter set and Δt = 1. -/
theorem C6_witness :
    ((⟨⟨0, 0⟩, ⟨0, 0⟩, 0, 0, false, 0, 0⟩ : KartState).vel = ⟨0, 0⟩) ∧
    stepKart ⟨⟨0, 0⟩, ⟨0, 0⟩, 0, 0, false, 0, 0⟩ zeroKartInput
        ⟨1, 1, 1, 1, 1, 1, 1, 1, 1, 1, 1, 1⟩ 1 =
      ⟨⟨0, 0⟩, ⟨0, 0⟩, 0, 0, false, 0, 0⟩ :=
  ⟨rfl,
    C6_rest_state_unchanged ⟨1, 1, 1, 1, 1, 1, 1, 1, 1, 1, 1, 1⟩ 1
      ⟨⟨0, 0⟩, ⟨0, 0⟩, 0, 0, false, 0, 0⟩ rfl rfl rfl rfl rfl⟩

/-! ## Theorems: decimal digits and number parsing -/

theorem digitsVal_append_singleton (l : List ℕ) (d : ℕ) :
    digitsVal (l ++ [d]) = 10 * digitsVal l + d := by
  simp [digitsVal, List.foldl_append]

theorem digitsVal_natDigitsAux :
    ∀ (fuel n : ℕ), n < fuel → digitsVal (natDigitsAux fuel n) = n := by
  intro fuel
  induction fuel with
  | zero => intro n h; omega
  | succ f ih =>
    intro n h
    rw [natDigitsAux]
    by_cases h10 : n < 10
    · simp [h10, digitsVal]
    · rw [if_neg h10, digitsVal_append_singleton, ih (n / 10) (by omega)]
      omega

theorem digitsVal_natDigits (n : ℕ) : digitsVal (natDigits n) = n :=
  digitsVal_natDigitsAux (n + 1) n (Nat.lt_succ_self n)

theorem natDigitsAux_lt_ten :
    ∀ (fuel n : ℕ), ∀ d ∈ natDigitsAux fuel n, d < 10 := by
  intro fuel
  induction fuel with
  | zero => intro n d hd; cases hd
  | succ f ih =>
    intro n d hd
    rw [natDigitsAux] at hd
    by_cases h10 : n < 10
    · rw [if_pos h10] at hd
      simp at hd
      omega
    · rw [if_neg h10] at hd
      rcases List.mem_append.1 hd with h2 | h2
      · exact ih (n / 10) d h2
      · simp at h2
        omega

theorem natDigits_lt_ten (n : ℕ) : ∀ d ∈ natDigits n, d < 10 :=
  natDigitsAux_lt_ten (n + 1) n

theorem natDigitsAux_ne_nil :
    ∀ (fuel n : ℕ), n < fuel → natDigitsAux fuel n ≠ [] := by
  intro fuel
  induction fuel with
  | zero => intro n h; omega
  | succ f ih =>
    intro n h
    rw [natDigitsAux]
    by_cases h10 : n < 10
    · simp [h10]
    · rw [if_neg h10]
      simp

theorem natDigits_ne_nil (n : ℕ) : natDigits n ≠ [] :=
  natDigitsAux_ne_nil (n + 1) n (Nat.lt_succ_self n)

theorem digitCh_toNat (d : ℕ) (h : d < 10) : (digitCh d).toNat = 48 + d := by
  interval_cases d <;> rfl

theorem takeDigits_digits_append (ds : List ℕ) (h : ∀ d ∈ ds, d < 10)
    (rest : List Char)
    (hrest : ∀ c, rest.head? = some c → ¬ (48 ≤ c.toNat ∧ c.toNat ≤ 57)) :
    takeDigits (ds.map digitCh ++ rest) = (ds, rest) := by
  induction ds with
  | nil =>
    simp only [List.map_nil, List.nil_append]
    cases rest with
    | nil => rfl
    | cons c r =>
      rw [takeDigits, if_neg (hrest c rfl)]
  | cons d ds ih =>
    have hd := h d (List.mem_cons_self d ds)
    have hds : ∀ x ∈ ds, x < 10 := fun x hx => h x (List.mem_cons_of_mem d hx)
    simp only [List.map_cons, List.cons_append]
    rw [takeDigits, if_pos (by rw [digitCh_toNat d hd]; omega), ih hds]
    simp [digitCh_toNat d hd]

theorem parseNumber_natChars (n : ℕ) (rest : List Char)
    (hrest : ∀ c, rest.head? = some c → ¬ (48 ≤ c.toNat ∧ c.toNat ≤ 57)) :
    parseNumber (natChars n ++ rest) = some (n, rest) := by
  have htd := takeDigits_digits_append (natDigits n) (natDigits_lt_ten n) rest hrest
  have hval := digitsVal_natDigits n
  rcases hnd : natDigits n with _ | ⟨d, ds⟩
  · exact absurd hnd (natDigits_ne_nil n)
  · rw [hnd] at htd hval
    rw [natChars, hnd, parseNumber, htd]
    simp [hval]

/-! ## Theorems: string escaping round trip -/

theorem hexVal_hexDigitCh (v : ℕ) (h : v < 16) : hexVal (hexDigitCh v) = some v := by
  interval_cases v <;> rfl

theorem parseStringBody_cons_plain (c : Char) (t : List Char)
    (h1 : ¬ c = '"') (h2 : ¬ c = '\\') (h3 : ¬ c.toNat < 32) :
    parseStringBody (c :: t) =
      match parseStringBody t with
      | some (cs, r) => some (c :: cs, r)
      | none => none := by
  conv_lhs => rw [parseStringBody.eq_def]
  simp [h1, h2, h3]

theorem parseStringBody_cons_short (e ch : Char) (t : List Char)
    (hu : ¬ e = 'u') (h : shortEscape e = some ch) :
    parseStringBody ('\\' :: e :: t) =
      match parseStringBody t with
      | some (cs, r) => some (ch :: cs, r)
      | none => none := by
  conv_lhs => rw [parseStringBody.eq_def]
  simp [hu, h]

theorem parseStringBody_cons_ctrl (v : ℕ) (hv : v < 32) (t : List Char) :
    parseStringBody ('\\' :: 'u' :: '0' :: '0' ::
        hexDigitCh (v / 16) :: hexDigitCh (v % 16) :: t) =
      match parseStringBody t with
      | some (cs, r) => some (Char.ofNat v :: cs, r)
      | none => none := by
  conv_lhs => rw [parseStringBody.eq_def]
  have hd : v / 16 * 16 + v % 16 = v := by omega
  simp [show hexVal '0' = some 0 from rfl,
    hexVal_hexDigitCh (v / 16) (by omega), hexVal_hexDigitCh (v % 16) (by omega),
    hd, show ¬ (55296 ≤ v ∧ v ≤ 57343) from by omega]

theorem parseStringBody_escapeStr :
    ∀ (s rest : List Char),
      parseStringBody (escapeStr s ++ '"' :: rest) = some (s, rest) := by
  intro s
  induction s with
  | nil =>
    intro rest
    show parseStringBody ('"' :: rest) = _
    conv_lhs => rw [parseStringBody.eq_def]
    simp
  | cons c s ih =>
    intro rest
    show parseStringBody ((escapeChar c ++ escapeStr s) ++ '"' :: rest) = _
    rw [List.append_assoc]
    by_cases h1 : c = '"'
    · subst h1
      rw [show escapeChar '"' = ['\\', '"'] from rfl, List.cons_append,
        List.cons_append, List.nil_append,
        parseStringBody_cons_short '"' '"' _ (by decide) rfl, ih]
    · by_cases h2 : c = '\\'
      · subst h2
        rw [show escapeChar '\\' = ['\\', '\\'] from rfl, List.cons_append,
          List.cons_append, List.nil_append,
          parseStringBody_cons_short '\\' '\\' _ (by decide) rfl, ih]
      · by_cases h3 : c = Char.ofNat 8
        · subst h3
          rw [show escapeChar (Char.ofNat 8) = ['\\', 'b'] from rfl,
            List.cons_append, List.cons_append, List.nil_append,
            parseStringBody_cons_short 'b' (Char.ofNat 8) _ (by decide) rfl, ih]
        · by_cases h4 : c = Char.ofNat 9
          · subst h4
            rw [show escapeChar (Char.ofNat 9) = ['\\', 't'] from rfl,
              List.cons_append, List.cons_append, List.nil_append,
              parseStringBody_cons_short 't' (Char.ofNat 9) _ (by decide) rfl, ih]
          · by_cases h5 : c = Char.ofNat 10
            · subst h5
              rw [show escapeChar (Char.ofNat 10) = ['\\', 'n'] from rfl,
                List.cons_append, List.cons_append, List.nil_append,
                parseStringBody_cons_short 'n' (Char.ofNat 10) _ (by decide) rfl,
                ih]
            · by_cases h6 : c = Char.ofNat 12
              · subst h6
                rw [show escapeChar (Char.ofNat 12) = ['\\', 'f'] from rfl,
                  List.cons_append, List.cons_append, List.nil_append,
                  parseStringBody_cons_short 'f' (Char.ofNat 12) _ (by decide)
                    rfl, ih]
              · by_cases h7 : c = Char.ofNat 13
                · subst h7
                  rw [show escapeChar (Char.ofNat 13) = ['\\', 'r'] from rfl,
                    List.cons_append, List.cons_append, List.nil_append,
                    parseStringBody_cons_short 'r' (Char.ofNat 13) _ (by decide)
                      rfl, ih]
                · by_cases h8 : c.toNat < 32
                  · have hesc : escapeChar c = ['\\', 'u', '0', '0',
                        hexDigitCh (c.toNat / 16), hexDigitCh (c.toNat % 16)] := by
                      rw [escapeChar, if_neg h1, if_neg h2, if_neg h3, if_neg h4,
                        if_neg h5, if_neg h6, if_neg h7, if_pos h8]
                    rw [hesc]
                    show parseStringBody ('\\' :: 'u' :: '0' :: '0' ::
                        hexDigitCh (c.toNat / 16) :: hexDigitCh (c.toNat % 16) ::
                        (escapeStr s ++ '"' :: rest)) = _
                    rw [parseStringBody_cons_ctrl c.toNat h8, ih,
                      Char.ofNat_toNat]
                  · have hesc : escapeChar c = [c] := by
                      rw [escapeChar, if_neg h1, if_neg h2, if_neg h3, if_neg h4,
                        if_neg h5, if_neg h6, if_neg h7, if_neg h8]
                    rw [hesc]
                    show parseStringBody (c :: (escapeStr s ++ '"' :: rest)) = _
                    rw [parseStringBody_cons_plain c _ h1 h2 h8, ih]

/-! ## Theorems: serialized streams and their leading characters -/

theorem digitCh_ne (d : ℕ) (h : d < 10) (c : Char)
    (hc : c.toNat < 48 ∨ 57 < c.toNat) : ¬ digitCh d = c := by
  intro he
  have := congrArg Char.toNat he
  rw [digitCh_toNat d h] at this
  omega

theorem intChars_nonneg (n : ℤ) (h : 0 ≤ n) : intChars n = natChars n.toNat := by
  rw [intChars, if_neg (by omega)]

theorem intChars_neg (n : ℤ) (h : n < 0) : intChars n = '-' :: natChars n.natAbs := by
  rw [intChars, if_pos h]

theorem natChars_cons (n : ℕ) :
    ∃ d ds, d < 10 ∧ natDigits n = d :: ds ∧
      natChars n = digitCh d :: ds.map digitCh := by
  rcases hnd : natDigits n with _ | ⟨d, ds⟩
  · exact absurd hnd (natDigits_ne_nil n)
  · exact ⟨d, ds, natDigits_lt_ten n d (hnd ▸ List.mem_cons_self d ds), rfl,
      by rw [natChars, hnd, List.map_cons]⟩

theorem stringify_head (j : Json) :
    ∃ c t, j.stringify = c :: t ∧ ¬ c = ']' ∧ ¬ c = '}' := by
  cases j with
  | null => exact ⟨'n', _, by rw [Json.stringify]; rfl, by decide, by decide⟩
  | bool b =>
    cases b with
    | true => exact ⟨'t', _, by rw [Json.stringify]; rfl, by decide, by decide⟩
    | false => exact ⟨'f', _, by rw [Json.stringify]; rfl, by decide, by decide⟩
  | num n =>
    by_cases h : n < 0
    · exact ⟨'-', _, by rw [Json.stringify, intChars_neg n h], by decide, by decide⟩
    · rcases natChars_cons n.toNat with ⟨d, ds, hd, _, hchars⟩
      exact ⟨digitCh d, ds.map digitCh,
        by rw [Json.stringify, intChars_nonneg n (by omega), hchars],
        digitCh_ne d hd ']' (by right; decide),
        digitCh_ne d hd '}' (by right; decide)⟩
  | str s =>
    exact ⟨'"', escapeStr s ++ ['"'], by rw [Json.stringify]; simp, by decide,
      by decide⟩
  | arr elems =>
    exact ⟨'[', Json.stringifyElems elems ++ [']'],
      by rw [Json.stringify]; simp, by decide, by decide⟩
  | obj fields =>
    exact ⟨'{', Json.stringifyFields fields ++ ['}'],
      by rw [Json.stringify]; simp, by decide, by decide⟩

theorem stringifyElems_cons_of_ne_nil (x : Json) (xs : List Json) (h : xs ≠ []) :
    Json.stringifyElems (x :: xs) =
      x.stringify ++ ',' :: Json.stringifyElems xs := by
  rcases xs with _ | ⟨y, ys⟩
  · exact absurd rfl h
  · rw [Json.stringifyElems]
    simp

theorem stringifyFields_cons_of_ne_nil (k : List Char) (v : Json)
    (fs : List (List Char × Json)) (h : fs ≠ []) :
    Json.stringifyFields ((k, v) :: fs) =
      ('"' :: escapeStr k ++ '"' :: ':' :: v.stringify) ++
        ',' :: Json.stringifyFields fs := by
  rcases fs with _ | ⟨f, gs⟩
  · exact absurd rfl h
  · rw [Json.stringifyFields]
    simp

theorem stringifyFields_head (fs : List (List Char × Json)) (h : fs ≠ []) :
    ∃ t, Json.stringifyFields fs = '"' :: t := by
  rcases fs with _ | ⟨⟨k, v⟩, gs⟩
  · exact absurd rfl h
  · rcases gs with _ | ⟨g, hs⟩
    · exact ⟨escapeStr k ++ '"' :: ':' :: v.stringify,
        by rw [Json.stringifyFields]; simp⟩
    · refine ⟨(escapeStr k ++ '"' :: ':' :: v.stringify) ++
        ',' :: Json.stringifyFields (g :: hs), ?_⟩
      rw [Json.stringifyFields]
      · rfl
      · simp



/-! ## Theorems: the parse/stringify round trip -/

theorem parseCore_succ_val_cons (f : ℕ) (c : Char) (t : List Char) :
    parseCore (f + 1) PMode.val (c :: t) =
      (if c = 'n' then
        match t with
        | 'u' :: 'l' :: 'l' :: rest2 => some (PRes.val Json.null rest2)
        | _ => none
      else if c = 't' then
        match t with
        | 'r' :: 'u' :: 'e' :: rest2 => some (PRes.val (Json.bool true) rest2)
        | _ => none
      else if c = 'f' then
        match t with
        | 'a' :: 'l' :: 's' :: 'e' :: rest2 =>
          some (PRes.val (Json.bool false) rest2)
        | _ => none
      else if c = '"' then
        match parseStringBody t with
        | some (cs, rest2) => some (PRes.val (Json.str cs) rest2)
        | none => none
      else if c = '[' then
        match t with
        | [] => none
        | c2 :: rest2 =>
          if c2 = ']' then some (PRes.val (Json.arr []) rest2)
          else
            match parseCore f PMode.elems (c2 :: rest2) with
            | some (PRes.elems js rest3) => some (PRes.val (Json.arr js) rest3)
            | _ => none
      else if c = '{' then
        match t with
        | [] => none
        | c2 :: rest2 =>
          if c2 = '}' then some (PRes.val (Json.obj []) rest2)
          else
            match parseCore f PMode.fields (c2 :: rest2) with
            | some (PRes.fields fs rest3) => some (PRes.val (Json.obj fs) rest3)
            | _ => none
      else if c = '-' then
        match parseNumber t with
        | some (n, rest2) => some (PRes.val (Json.num (-(n : ℤ))) rest2)
        | none => none
      else if 48 ≤ c.toNat ∧ c.toNat ≤ 57 then
        match parseNumber (c :: t) with
        | some (n, rest2) => some (PRes.val (Json.num (n : ℤ)) rest2)
        | none => none
      else none) := rfl

theorem parseCore_succ_elems (f : ℕ) (s : List Char) :
    parseCore (f + 1) PMode.elems s =
      (match parseCore f PMode.val s with
      | some (PRes.val j rest) =>
        match rest with
        | [] => none
        | c :: rest2 =>
          if c = ',' then
            match parseCore f PMode.elems rest2 with
            | some (PRes.elems js rest3) => some (PRes.elems (j :: js) rest3)
            | _ => none
          else if c = ']' then some (PRes.elems [j] rest2)
          else none
      | _ => none) := rfl

theorem parseCore_succ_fields_cons (f : ℕ) (c : Char) (t : List Char) :
    parseCore (f + 1) PMode.fields (c :: t) =
      (if c = '"' then
        match parseStringBody t with
        | some (k, rest2) =>
          match rest2 with
          | [] => none
          | c2 :: rest3 =>
            if c2 = ':' then
              match parseCore f PMode.val rest3 with
              | some (PRes.val v rest4) =>
                match rest4 with
                | [] => none
                | c3 :: rest5 =>
                  if c3 = ',' then
                    match parseCore f PMode.fields rest5 with
                    | some (PRes.fields fs rest6) =>
                      some (PRes.fields ((k, v) :: fs) rest6)
                    | _ => none
                  else if c3 = '}' then some (PRes.fields [(k, v)] rest5)
                  else none
              | _ => none
            else none
        | none => none
      else none) := rfl

theorem parseCore_stringify :
    ∀ n : ℕ,
      (∀ j : Json, sizeOf j ≤ n → ∀ (fuel : ℕ) (rest : List Char),
        jsonFuel j ≤ fuel →
        (∀ c, rest.head? = some c → ¬ (48 ≤ c.toNat ∧ c.toNat ≤ 57)) →
        parseCore fuel PMode.val (j.stringify ++ rest) =
          some (PRes.val j rest)) ∧
      (∀ xs : List Json, sizeOf xs ≤ n → xs ≠ [] →
        ∀ (fuel : ℕ) (rest : List Char), elemsFuel xs ≤ fuel →
        parseCore fuel PMode.elems (Json.stringifyElems xs ++ ']' :: rest) =
          some (PRes.elems xs rest)) ∧
      (∀ fs : List (List Char × Json), sizeOf fs ≤ n → fs ≠ [] →
        ∀ (fuel : ℕ) (rest : List Char), fieldsFuel fs ≤ fuel →
        parseCore fuel PMode.fields (Json.stringifyFields fs ++ '}' :: rest) =
          some (PRes.fields fs rest)) := by
  intro n
  induction n using Nat.strong_induction_on with
  | _ n ih =>
    refine ⟨?_, ?_, ?_⟩
    · -- values
      intro j hsize fuel rest hfuel hrest
      obtain ⟨f, rfl⟩ : ∃ f, fuel = f + 1 := by
        refine ⟨fuel - 1, ?_⟩
        have h1 : 1 ≤ jsonFuel j := by
          cases j with
          | arr elems => cases elems <;> simp [jsonFuel]
          | obj fields => cases fields <;> simp [jsonFuel]
          | null => simp [jsonFuel]
          | bool b => simp [jsonFuel]
          | num m => simp [jsonFuel]
          | str s => simp [jsonFuel]
        omega
      cases j with
      | null =>
        rw [show Json.stringify Json.null = chars "null" from by
          rw [Json.stringify]]
        rfl
      | bool b =>
        cases b with
        | true =>
          rw [show Json.stringify (Json.bool true) = chars "true" from by
            rw [Json.stringify]]
          rfl
        | false =>
          rw [show Json.stringify (Json.bool false) = chars "false" from by
            rw [Json.stringify]]
          rfl
      | num m =>
        by_cases hm : m < 0
        · rw [show Json.stringify (Json.num m) = intChars m from by
            rw [Json.stringify], intChars_neg m hm, List.cons_append,
            parseCore_succ_val_cons]
          simp only [if_neg (by decide : ¬ ('-' : Char) = 'n'),
            if_neg (by decide : ¬ ('-' : Char) = 't'),
            if_neg (by decide : ¬ ('-' : Char) = 'f'),
            if_neg (by decide : ¬ ('-' : Char) = '"'),
            if_neg (by decide : ¬ ('-' : Char) = '['),
            if_neg (by decide : ¬ ('-' : Char) = '{'),
            if_pos (rfl : ('-' : Char) = '-')]
          rw [parseNumber_natChars m.natAbs rest hrest]
          have hcast : ((m.natAbs : ℤ)) = -m := by omega
          simp [hcast]
        · rcases natChars_cons m.toNat with ⟨d, ds, hd, hnd, hchars⟩
          rw [show Json.stringify (Json.num m) = intChars m from by
            rw [Json.stringify], intChars_nonneg m (by omega), hchars,
            List.cons_append, parseCore_succ_val_cons]
          simp only [
            if_neg (digitCh_ne d hd 'n' (by right; decide)),
            if_neg (digitCh_ne d hd 't' (by right; decide)),
            if_neg (digitCh_ne d hd 'f' (by right; decide)),
            if_neg (digitCh_ne d hd '"' (by left; decide)),
            if_neg (digitCh_ne d hd '[' (by right; decide)),
            if_neg (digitCh_ne d hd '{' (by right; decide)),
            if_neg (digitCh_ne d hd '-' (by left; decide)),
            if_pos (by rw [digitCh_toNat d hd]; omega :
              48 ≤ (digitCh d).toNat ∧ (digitCh d).toNat ≤ 57)]
          rw [show digitCh d :: (ds.map digitCh ++ rest) =
            natChars m.toNat ++ rest from by rw [hchars, List.cons_append],
            parseNumber_natChars m.toNat rest hrest]
          have hcast : (m.toNat : ℤ) = m := by omega
          simp [hcast]
      | str s =>
        rw [show Json.stringify (Json.str s) = '"' :: escapeStr s ++ ['"'] from
          by rw [Json.stringify]]
        rw [show ('"' :: escapeStr s ++ ['"']) ++ rest =
          '"' :: (escapeStr s ++ '"' :: rest) from by simp,
          parseCore_succ_val_cons]
        simp only [if_neg (by decide : ¬ ('"' : Char) = 'n'),
          if_neg (by decide : ¬ ('"' : Char) = 't'),
          if_neg (by decide : ¬ ('"' : Char) = 'f'),
          if_pos (rfl : ('"' : Char) = '"')]
        rw [parseStringBody_escapeStr s rest]
        simp
      | arr elems =>
        cases elems with
        | nil =>
          rw [show Json.stringify (Json.arr []) = chars "[]" from by
            rw [Json.stringify]; rfl]
          rfl
        | cons x xs =>
          rw [show Json.stringify (Json.arr (x :: xs)) =
            '[' :: Json.stringifyElems (x :: xs) ++ [']'] from by
            rw [Json.stringify]]
          rw [show ('[' :: Json.stringifyElems (x :: xs) ++ [']']) ++ rest =
            '[' :: (Json.stringifyElems (x :: xs) ++ ']' :: rest) from by simp,
            parseCore_succ_val_cons]
          simp only [if_neg (by decide : ¬ ('[' : Char) = 'n'),
            if_neg (by decide : ¬ ('[' : Char) = 't'),
            if_neg (by decide : ¬ ('[' : Char) = 'f'),
            if_neg (by decide : ¬ ('[' : Char) = '"'),
            if_pos (rfl : ('[' : Char) = '[')]
          rcases stringify_head x with ⟨c, t, hx, hc1, hc2⟩
          have hT : ∃ T, Json.stringifyElems (x :: xs) ++ ']' :: rest = c :: T := by
            rcases xs with _ | ⟨y, ys⟩
            · exact ⟨t ++ ']' :: rest, by rw [Json.stringifyElems, hx]; simp⟩
            · exact ⟨t ++ ',' :: Json.stringifyElems (y :: ys) ++ ']' :: rest,
                by rw [stringifyElems_cons_of_ne_nil x (y :: ys) (by simp), hx]
                   simp⟩
          rcases hT with ⟨T, hT⟩
          rw [hT]
          simp only [if_neg hc1]
          rw [← hT]
          have helems := (ih (sizeOf (x :: xs)) (by simp at hsize ⊢; omega)).2.1
            (x :: xs) (Nat.le_refl _) (by simp) f rest
            (by have he : jsonFuel (Json.arr (x :: xs)) = 1 + elemsFuel (x :: xs) :=
                  by rw [jsonFuel]
                omega)
          rw [helems]
          simp
      | obj fields =>
        cases fields with
        | nil =>
          rw [show Json.stringify (Json.obj []) = chars "{}" from by
            rw [Json.stringify]; rfl]
          rfl
        | cons kv fs =>
          rw [show Json.stringify (Json.obj (kv :: fs)) =
            '{' :: Json.stringifyFields (kv :: fs) ++ ['}'] from by
            rw [Json.stringify]]
          rw [show ('{' :: Json.stringifyFields (kv :: fs) ++ ['}']) ++ rest =
            '{' :: (Json.stringifyFields (kv :: fs) ++ '}' :: rest) from by simp,
            parseCore_succ_val_cons]
          simp only [if_neg (by decide : ¬ ('{' : Char) = 'n'),
            if_neg (by decide : ¬ ('{' : Char) = 't'),
            if_neg (by decide : ¬ ('{' : Char) = 'f'),
            if_neg (by decide : ¬ ('{' : Char) = '"'),
            if_neg (by decide : ¬ ('{' : Char) = '['),
            if_pos (rfl : ('{' : Char) = '{')]
          rcases stringifyFields_head (kv :: fs) (by simp) with ⟨t, hf⟩
          rw [show Json.stringifyFields (kv :: fs) ++ '}' :: rest =
            '"' :: (t ++ '}' :: rest) from by rw [hf]; simp]
          simp only [if_neg (by decide : ¬ ('"' : Char) = '}')]
          rw [show ('"' : Char) :: (t ++ '}' :: rest) =
            Json.stringifyFields (kv :: fs) ++ '}' :: rest from by rw [hf]; simp]
          have hfields := (ih (sizeOf (kv :: fs)) (by simp at hsize ⊢; omega)).2.2
            (kv :: fs) (Nat.le_refl _) (by simp) f rest
            (by have he : jsonFuel (Json.obj (kv :: fs)) = 1 + fieldsFuel (kv :: fs) :=
                  by rw [jsonFuel]
                omega)
          rw [hfields]
          simp
    · -- array elements
      intro xs hsize hne fuel rest hfuel
      rcases xs with _ | ⟨x, xs⟩
      · exact absurd rfl hne
      have hefuel : elemsFuel (x :: xs) = 1 + jsonFuel x + elemsFuel xs := by
        rw [elemsFuel]
      obtain ⟨f, rfl⟩ : ∃ f, fuel = f + 1 := ⟨fuel - 1, by omega⟩
      have hxval := (ih (sizeOf x) (by simp at hsize ⊢; omega)).1 x (Nat.le_refl _)
      rcases xs with _ | ⟨y, ys⟩
      · rw [show Json.stringifyElems [x] = x.stringify from by
          rw [Json.stringifyElems]]
        rw [parseCore_succ_elems, hxval f (']' :: rest) (by omega)
          (by intro c hc; simp at hc; subst hc; decide)]
        rfl
      · rw [stringifyElems_cons_of_ne_nil x (y :: ys) (by simp)]
        rw [show (x.stringify ++ ',' :: Json.stringifyElems (y :: ys)) ++
            ']' :: rest =
          x.stringify ++ ',' :: (Json.stringifyElems (y :: ys) ++ ']' :: rest)
          from by simp]
        rw [parseCore_succ_elems, hxval f
          (',' :: (Json.stringifyElems (y :: ys) ++ ']' :: rest)) (by omega)
          (by intro c hc; simp at hc; subst hc; decide)]
        have htail := (ih (sizeOf (y :: ys)) (by simp at hsize ⊢; omega)).2.1
          (y :: ys) (Nat.le_refl _) (by simp) f rest
          (by have he2 : elemsFuel (y :: ys) = 1 + jsonFuel y + elemsFuel ys := by
                rw [elemsFuel]
              omega)
        simp [htail]
    · -- object members
      intro fs hsize hne fuel rest hfuel
      rcases fs with _ | ⟨⟨k, v⟩, fs⟩
      · exact absurd rfl hne
      have hffuel : fieldsFuel ((k, v) :: fs) = 1 + jsonFuel v + fieldsFuel fs := by
        rw [fieldsFuel]
      obtain ⟨f, rfl⟩ : ∃ f, fuel = f + 1 := ⟨fuel - 1, by omega⟩
      have hvval := (ih (sizeOf v) (by simp at hsize ⊢; omega)).1 v (Nat.le_refl _)
      rcases fs with _ | ⟨⟨k2, v2⟩, gs⟩
      · rw [show Json.stringifyFields [(k, v)] ++ '}' :: rest =
          '"' :: (escapeStr k ++ '"' :: (':' :: (v.stringify ++ '}' :: rest)))
          from by rw [Json.stringifyFields]; simp,
          parseCore_succ_fields_cons]
        simp only [if_pos (rfl : ('"' : Char) = '"')]
        rw [parseStringBody_escapeStr k (':' :: (v.stringify ++ '}' :: rest))]
        simp only [if_pos (rfl : (':' : Char) = ':')]
        rw [hvval f ('}' :: rest) (by omega)
          (by intro c hc; simp at hc; subst hc; decide)]
        rfl
      · rw [show Json.stringifyFields ((k, v) :: (k2, v2) :: gs) ++ '}' :: rest =
          '"' :: (escapeStr k ++ '"' :: (':' :: (v.stringify ++
            ',' :: (Json.stringifyFields ((k2, v2) :: gs) ++ '}' :: rest))))
          from by
            rw [stringifyFields_cons_of_ne_nil k v ((k2, v2) :: gs) (by simp)]
            simp,
          parseCore_succ_fields_cons]
        simp only [if_pos (rfl : ('"' : Char) = '"')]
        rw [parseStringBody_escapeStr k (':' :: (v.stringify ++
          ',' :: (Json.stringifyFields ((k2, v2) :: gs) ++ '}' :: rest)))]
        simp only [if_pos (rfl : (':' : Char) = ':')]
        rw [hvval f (',' :: (Json.stringifyFields ((k2, v2) :: gs) ++ '}' :: rest))
          (by omega) (by intro c hc; simp at hc; subst hc; decide)]
        have htail := (ih (sizeOf ((k2, v2) :: gs)) (by simp at hsize ⊢; omega)).2.2
          ((k2, v2) :: gs) (Nat.le_refl _) (by simp) f rest
          (by have he2 : fieldsFuel ((k2, v2) :: gs) =
                1 + jsonFuel v2 + fieldsFuel gs := by rw [fieldsFuel]
              omega)
        simp [htail]

/-! ## Theorems: fuel bound and the full parse/stringify round trip -/

theorem stringify_length_fuel :
    ∀ n : ℕ,
      (∀ j : Json, sizeOf j ≤ n →
        jsonFuel j ≤ (Json.stringify j).length) ∧
      (∀ xs : List Json, sizeOf xs ≤ n →
        elemsFuel xs ≤ (Json.stringifyElems xs).length + 1) ∧
      (∀ fs : List (List Char × Json), sizeOf fs ≤ n →
        fieldsFuel fs ≤ (Json.stringifyFields fs).length + 1) := by
  intro n
  induction n using Nat.strong_induction_on with
  | _ n ih =>
    refine ⟨?_, ?_, ?_⟩
    · intro j hsize
      cases j with
      | null =>
        rw [show Json.stringify Json.null = chars "null" from by
          rw [Json.stringify]]
        simp only [jsonFuel]
        decide
      | bool b =>
        cases b with
        | true =>
          rw [show Json.stringify (Json.bool true) = chars "true" from by
            rw [Json.stringify]]
          simp only [jsonFuel]
          decide
        | false =>
          rw [show Json.stringify (Json.bool false) = chars "false" from by
            rw [Json.stringify]]
          simp only [jsonFuel]
          decide
      | num m =>
        by_cases hm : m < 0
        · rcases natChars_cons m.natAbs with ⟨d, ds, _, _, hchars⟩
          rw [show Json.stringify (Json.num m) = intChars m from by
            rw [Json.stringify], intChars_neg m hm, hchars]
          simp only [jsonFuel, List.length_cons]
          omega
        · rcases natChars_cons m.toNat with ⟨d, ds, _, _, hchars⟩
          rw [show Json.stringify (Json.num m) = intChars m from by
            rw [Json.stringify], intChars_nonneg m (by omega), hchars]
          simp only [jsonFuel, List.length_cons]
          omega
      | str s =>
        rw [show Json.stringify (Json.str s) = '"' :: escapeStr s ++ ['"'] from
          by rw [Json.stringify]]
        simp only [jsonFuel, List.length_cons, List.length_append]
        omega
      | arr elems =>
        rcases elems with _ | ⟨x, xs⟩
        · rw [show Json.stringify (Json.arr []) = chars "[]" from by
            rw [Json.stringify]; rfl]
          simp only [jsonFuel]
          decide
        · have he := (ih (sizeOf (x :: xs)) (by simp at hsize ⊢; omega)).2.1
            (x :: xs) (Nat.le_refl _)
          rw [show Json.stringify (Json.arr (x :: xs)) =
            '[' :: Json.stringifyElems (x :: xs) ++ [']'] from by
            rw [Json.stringify], jsonFuel]
          simp only [List.length_cons, List.length_append, List.length_nil]
          omega
      | obj fields =>
        rcases fields with _ | ⟨kv, fs⟩
        · rw [show Json.stringify (Json.obj []) = chars "{}" from by
            rw [Json.stringify]; rfl]
          simp only [jsonFuel]
          decide
        · have he := (ih (sizeOf (kv :: fs)) (by simp at hsize ⊢; omega)).2.2
            (kv :: fs) (Nat.le_refl _)
          rw [show Json.stringify (Json.obj (kv :: fs)) =
            '{' :: Json.stringifyFields (kv :: fs) ++ ['}'] from by
            rw [Json.stringify], jsonFuel]
          simp only [List.length_cons, List.length_append, List.length_nil]
          omega
    · intro xs hsize
      rcases xs with _ | ⟨x, xs⟩
      · simp only [elemsFuel]
        omega
      · have hx := (ih (sizeOf x) (by simp at hsize ⊢; omega)).1 x (Nat.le_refl _)
        rcases xs with _ | ⟨y, ys⟩
        · rw [show Json.stringifyElems [x] = x.stringify from by
            rw [Json.stringifyElems]]
          simp only [elemsFuel]
          omega
        · have ht := (ih (sizeOf (y :: ys)) (by simp at hsize ⊢; omega)).2.1
            (y :: ys) (Nat.le_refl _)
          rw [stringifyElems_cons_of_ne_nil x (y :: ys) (by simp), elemsFuel]
          simp only [List.length_append, List.length_cons]
          omega
    · intro fs hsize
      rcases fs with _ | ⟨⟨k, v⟩, fs⟩
      · simp only [fieldsFuel]
        omega
      · have hv := (ih (sizeOf v) (by simp at hsize ⊢; omega)).1 v (Nat.le_refl _)
        rcases fs with _ | ⟨⟨k2, v2⟩, gs⟩
        · rw [show Json.stringifyFields [(k, v)] =
            '"' :: escapeStr k ++ '"' :: ':' :: v.stringify from by
              rw [Json.stringifyFields]]
          simp only [fieldsFuel, List.length_cons, List.length_append]
          omega
        · have ht := (ih (sizeOf ((k2, v2) :: gs)) (by simp at hsize ⊢; omega)).2.2
            ((k2, v2) :: gs) (Nat.le_refl _)
          rw [stringifyFields_cons_of_ne_nil k v ((k2, v2) :: gs) (by simp),
            fieldsFuel]
          simp only [List.length_append, List.length_cons]
          omega

theorem parseJson_stringify (j : Json) :
    parseJson (Json.stringify j) = some j := by
  have hlen := (stringify_length_fuel (sizeOf j)).1 j (Nat.le_refl _)
  have h := (parseCore_stringify (sizeOf j)).1 j (Nat.le_refl _)
    ((Json.stringify j).length + 1) [] (by omega)
    (by intro c hc; simp at hc)
  rw [List.append_nil] at h
  rw [parseJson, h]

/-! ## Theorems: ghost recording decode-of-encode and import/export -/

theorem decodeList_map {α : Type} (dec : Json → Option α) (enc : α → Json)
    (h : ∀ a, dec (enc a) = some a) (l : List α) :
    decodeList dec (l.map enc) = some l := by
  induction l with
  | nil => rfl
  | cons a l ihl => rw [List.map_cons, decodeList, h a, ihl]

theorem decodeInputEvent_encode (e : GhostInputEvent) :
    decodeInputEvent (encodeInputEvent e) = some e := by
  cases e with
  | mk t a p => simp [encodeInputEvent, decodeInputEvent]

theorem decodePositionFrame_encode (f : GhostPositionFrame) :
    decodePositionFrame (encodePositionFrame f) = some f := by
  rcases f with ⟨t, ⟨x, y, z⟩⟩
  simp [encodePositionFrame, decodePositionFrame]

theorem decodeRecording_encode (r : GhostRecording) :
    decodeRecording (encodeRecording r) = some r := by
  rcases r with ⟨c, ins, pos⟩
  simp [encodeRecording, decodeRecording,
    decodeList_map decodeInputEvent encodeInputEvent decodeInputEvent_encode ins,
    decodeList_map decodePositionFrame encodePositionFrame
      decodePositionFrame_encode pos]

/-- Claim C7: exporting a stored ghost recording and importing the exported
string reproduces it exactly — for every finite recording, `exportJson`
yields a string that `importJson` parses back to the identical JSON value,
and decoding that value recovers a recording with the same `inputs` and
`positions` arrays (round trip). -/
theorem C7_export_import_roundtrip (r : GhostRecording) (st st2 : GhostState)
    (h : st.lastRecording = some (encodeRecording r)) :
    ∃ s, exportJson st = some s ∧
      (importJson st2 s).lastRecording = some (encodeRecording r) ∧
      Option.bind (importJson st2 s).lastRecording decodeRecording = some r := by
  refine ⟨(encodeRecording r).stringify, ?_, ?_, ?_⟩
  · rw [exportJson, h]
  · rw [importJson, parseJson_stringify]
  · rw [importJson, parseJson_stringify]
    simp [decodeRecording_encode]

/-- Claim C7, witness: a one-input-sample, one-position-sample recording
stored in the ghost store survives an export/import round trip. -/
theorem C7_witness :
    ∃ s,
      exportJson ⟨false, none,
          some (encodeRecording
            ⟨5, [⟨0, chars "accel", true⟩], [⟨0, (1, 2, 3)⟩]⟩)⟩ = some s ∧
      (importJson ⟨false, none, none⟩ s).lastRecording =
        some (encodeRecording
          ⟨5, [⟨0, chars "accel", true⟩], [⟨0, (1, 2, 3)⟩]⟩) ∧
      Option.bind (importJson ⟨false, none, none⟩ s).lastRecording
          decodeRecording =
        some ⟨5, [⟨0, chars "accel", true⟩], [⟨0, (1, 2, 3)⟩]⟩ :=
  C7_export_import_roundtrip
    ⟨5, [⟨0, chars "accel", true⟩], [⟨0, (1, 2, 3)⟩]⟩
    ⟨false, none,
      some (encodeRecording ⟨5, [⟨0, chars "accel", true⟩], [⟨0, (1, 2, 3)⟩]⟩)⟩
    ⟨false, none, none⟩ rfl

/-- Claim C8: for every input string that fails to parse as JSON,
`importJson` catches the parse failure and drops the import, leaving the
ghost-store state — in particular the previously loaded playback
recording — unchanged. -/
theorem C8_import_failure_noop (st : GhostState) (s : List Char)
    (h : parseJson s = none) : importJson st s = st := by
  rw [importJson, h]

/-- Claim C8, witness: a lone opening brace is rejected by the JSON parser
and importing it leaves a concrete ghost state untouched. -/
theorem C8_witness :
    parseJson (chars "\x7b") = none ∧
      importJson ⟨true, some Json.null, some (Json.bool false)⟩
          (chars "\x7b") =
        ⟨true, some Json.null, some (Json.bool false)⟩ :=
  ⟨rfl,
    C8_import_failure_noop ⟨true, some Json.null, some (Json.bool false)⟩
      (chars "\x7b") rfl⟩
